import Mathlib

/-!
Verification of the knowledge-graph reconciliation engine of `check_kg.py`
(class `KnowledgeGraphUpdater`).  The Neo4j store is modelled as an explicit
graph value (lists of nodes and edges); each Cypher query issued by the code
is translated into a pure function on that value, following the query text.
JSON payloads (the parsed `analysis` field) are modelled by the `JVal` type;
Python dynamic-typing behaviour (truthiness, `str()` coercion, and the
`AttributeError` raised by `.strip()` on a non-string, which the code either
catches locally or lets abort the document) is translated explicitly.

Python string primitives (`.strip()`, `.lower()`, `.upper()`,
`.endswith()`, `in`) are modelled by executable character-list functions
(`pyStrip`, `pyLower`, `pyUpper`, `endsWithStr`, `strContains`), which agree
with the Python semantics on the ASCII range handled by this pipeline.
-/

set_option maxRecDepth 8000

namespace CheckKG

/-! ## Python string primitives -/

/-- Python `s.strip()`: drop whitespace from both ends. -/
def pyStrip (s : String) : String :=
  String.mk (((s.data.dropWhile Char.isWhitespace).reverse.dropWhile
    Char.isWhitespace).reverse)

/-- Python `s.lower()` (and Cypher `toLower`). -/
def pyLower (s : String) : String := String.mk (s.data.map Char.toLower)

/-- Python `s.upper()`. -/
def pyUpper (s : String) : String := String.mk (s.data.map Char.toUpper)

/-- Character-list prefix test. -/
def isPrefixChars : List Char → List Char → Bool
  | [], _ => true
  | _ :: _, [] => false
  | a :: as, b :: bs => a == b && isPrefixChars as bs

/-- Character-list infix test. -/
def isInfixChars (needle : List Char) : List Char → Bool
  | [] => needle.isEmpty
  | b :: bs => isPrefixChars needle (b :: bs) || isInfixChars needle bs

/-- Python `s.endswith(suf)`. -/
def endsWithStr (s suf : String) : Bool :=
  isPrefixChars suf.data.reverse s.data.reverse

/-- Python `needle in hay` on strings. -/
def strContains (hay needle : String) : Bool :=
  isInfixChars needle.data hay.data

/-! ## JSON payloads -/

/-- JSON-like values as produced by `json.loads` on an `analysis` payload.
Strings, objects, arrays and `null` are modelled (numbers and booleans are
not; no claim depends on them). -/
inductive JVal where
  | jstr : String → JVal
  | jnull : JVal
  | jlist : List JVal → JVal
  | jobj : List (String × JVal) → JVal

/-- `d.get(k)` on a Python dict modelled as an association list
(first binding wins, as dict keys are unique). -/
def lookupField (k : String) (fs : List (String × JVal)) : Option JVal :=
  (fs.find? (fun p => p.1 = k)).map (fun p => p.2)

/-- Python truthiness of a JSON value (`bool(v)`). -/
def truthy : JVal → Bool
  | .jstr s => !(s == "")
  | .jnull => false
  | .jlist xs => !xs.isEmpty
  | .jobj fs => !fs.isEmpty

mutual

/-- Python `repr()` of a JSON value (approximate: quote escaping inside
strings is not reproduced; no claim depends on the exact rendering, only on
it being a fixed total function, which is what `str(value)` is). -/
def pyRepr : JVal → String
  | .jstr s => "'" ++ s ++ "'"
  | .jnull => "None"
  | .jlist xs => "[" ++ pyReprList xs ++ "]"
  | .jobj fs => "\x7b" ++ pyReprFields fs ++ "\x7d"

/-- Comma-separated reprs of the elements of a JSON array. -/
def pyReprList : List JVal → String
  | [] => ""
  | [x] => pyRepr x
  | x :: y :: xs => pyRepr x ++ ", " ++ pyReprList (y :: xs)

/-- Comma-separated `'key': repr` renderings of the fields of a JSON object. -/
def pyReprFields : List (String × JVal) → String
  | [] => ""
  | [(k, v)] => "'" ++ k ++ "': " ++ pyRepr v
  | (k, v) :: f :: fs => "'" ++ k ++ "': " ++ pyRepr v ++ ", " ++ pyReprFields (f :: fs)

end

/-- Python `str()` of a JSON value: identity on strings, `repr` otherwise. -/
def pyStr : JVal → String
  | .jstr s => s
  | v => pyRepr v

/-! ## The graph store -/

/-- A graph node: Neo4j label plus the three array properties the engine
maintains (`NAME`, `id`, `source`).  A property that Neo4j would report as
`NULL` is modelled as the empty list: every predicate the code runs has the
shape `prop IS NOT NULL AND any(item IN prop ...)`, and every mutation has
the shape `CASE WHEN prop IS NULL THEN [x] WHEN ... ELSE prop + [x]`, both
of which behave on `NULL` exactly as they do on `[]`. -/
structure Node where
  nodeId : Nat
  label : String
  NAME : List String
  id : List String
  source : List String
deriving DecidableEq, Repr

/-- A directed typed edge; `source` is its provenance array. -/
structure Edge where
  relType : String
  src : Nat
  dst : Nat
  source : List String
deriving DecidableEq, Repr

/-- The graph store.  `nextId` generates element ids for created nodes. -/
structure Graph where
  nodes : List Node
  edges : List Edge
  nextId : Nat
deriving DecidableEq, Repr

/-- The provenance tag this ingestion run writes (`'pubtator_extraction'`). -/
def tag : String := "pubtator_extraction"

/-- `any(item IN n.NAME WHERE toLower(toString(item)) = toLower($name))`
where `$name` is the already-stripped query parameter. -/
def matchesName (n : Node) (s : String) : Bool :=
  n.NAME.any (fun item => pyLower item == pyLower s)

/-- Find a node by element id (`WHERE elementId(n) = $node_id`). -/
def getNode (g : Graph) (i : Nat) : Option Node :=
  g.nodes.find? (fun n => n.nodeId == i)

/-! ## The store operations of `KnowledgeGraphUpdater` -/

/-- The fixed coarse-type → label mapping table (`label_mapping` in
`entity_exists` and `create_new_entity`). -/
def label_mapping : List (String × String) :=
  [("drug", "DRUG"), ("medication", "DRUG"), ("chemical", "DRUG"),
   ("disease", "DISEASE"), ("gene", "Gene"), ("protein", "PROTEIN"),
   ("gene_protein", "Gene")]

/-- `label_mapping.get(entity_type.lower(), entity_type.upper())`: the label
used for lookup and creation (unmapped coarse types fall back to the
upper-cased literal). -/
def labelFor (entity_type : String) : String :=
  match (label_mapping.find? (fun p => p.1 = pyLower entity_type)).map (fun p => p.2) with
  | some l => l
  | none => pyUpper entity_type

/-- `KnowledgeGraphUpdater.entity_exists`: label-scoped lookup of a node
whose `NAME` array contains the (stripped) candidate name case-insensitively;
returns the element id of the first match (`LIMIT 1`). -/
def entity_exists (g : Graph) (entity_name entity_type : String) : Option Nat :=
  if pyStrip entity_name = "" then none
  else
    (g.nodes.find? (fun n =>
      n.label == labelFor entity_type && matchesName n (pyStrip entity_name))).map
      (fun n => n.nodeId)

/-- `KnowledgeGraphUpdater.relationship_exists`: bidirectional existence
check — `MATCH (a)-[r:T]-(b)` with name matching of the two endpoints in
either direction. -/
def relationship_exists (g : Graph) (entity1_name entity2_name rel_type : String) : Bool :=
  if entity1_name == "" || entity2_name == "" || rel_type == "" then false
  else
    g.edges.any (fun e =>
      e.relType == rel_type &&
      (match getNode g e.src, getNode g e.dst with
       | some a, some b =>
          (matchesName a (pyStrip entity1_name) && matchesName b (pyStrip entity2_name)) ||
          (matchesName a (pyStrip entity2_name) && matchesName b (pyStrip entity1_name))
       | _, _ => false))

/-- The hard-coded fallback relation-type catalog of `load_relation_types`
(used when no `relation_types.json` candidate path exists). -/
def defaultRelationTypes : List String :=
  ["RELATED_GENETIC_DISORDER", "COMPLEX_IN_PATHWAY", "PROTEIN_DISEASE_ASSOCIATION",
   "DDI", "DRUG_PATHWAY_ASSOCIATION", "PPI", "DISEASE_PATHWAY_ASSOCIATION",
   "DRUG_TARGET", "DRUG_CARRIER", "DRUG_ENZYME", "DRUG_TRANSPORTER",
   "DISEASE_GENETIC_DISORDER", "DRUG_DISEASE_ASSOCIATION",
   "PROTEIN_PATHWAY_ASSOCIATION", "COMPLEX_TOP_LEVEL_PATHWAY", "DPI"]

/-- `KnowledgeGraphUpdater.validate_relation_type` with catalog `valid`
(`self.valid_relation_types`): empty/whitespace input falls back to
`"RELATIONSHIP"`; exact catalog members are returned unchanged; otherwise a
case-insensitive catalog match returns the canonical casing; otherwise the
raw label is returned unchanged. -/
def validate_relation_type (valid : List String) (rel_type : String) : String :=
  if pyStrip rel_type = "" then "RELATIONSHIP"
  else if valid.contains rel_type then rel_type
  else
    match valid.find? (fun v => pyUpper v == pyUpper rel_type) with
    | some v => v
    | none => rel_type

/-- Outcome of evaluating the guard
`entity_id and entity_id.strip() and entity_id != "Not specified"` on the raw
`id` field of an entity record.  A truthy non-string raises `AttributeError`
at `.strip()`, which `update_existing_entity` / `create_new_entity` catch
internally (`raiseErr`); a falsy value or the sentinel takes the no-id
branch; otherwise the stripped id is used. -/
inductive IdStatus where
  | withId : String → IdStatus
  | withoutId : IdStatus
  | raiseErr : IdStatus
deriving DecidableEq, Repr

/-- Evaluate the id guard on `entity.get("id", None)`. -/
def idStatus : Option JVal → IdStatus
  | none => .withoutId
  | some (.jstr s) =>
      if s = "" then .withoutId
      else if pyStrip s = "" then .withoutId
      else if s = "Not specified" then .withoutId
      else .withId (pyStrip s)
  | some .jnull => .withoutId
  | some (.jobj fs) => if fs.isEmpty then .withoutId else .raiseErr
  | some (.jlist xs) => if xs.isEmpty then .withoutId else .raiseErr

/-- Apply a function to the node with the given element id. -/
def mapNode (g : Graph) (i : Nat) (f : Node → Node) : Graph :=
  { g with nodes := g.nodes.map (fun n => if n.nodeId == i then f n else n) }

/-- `KnowledgeGraphUpdater.update_existing_entity`: append the provenance
tag, the new name (iff no case-insensitive match is present) and — when the
id guard passes — the new id (iff not already present, exact match) to the
arrays of the addressed node.  An `AttributeError` from the id guard is
caught inside the method, so no mutation happens (`raiseErr`).  The
`entity_type` argument is unused, as in the source. -/
def update_existing_entity (g : Graph) (entity_name entity_type : String)
    (entity_id : Option JVal) (node_id : Nat) : Graph :=
  if entity_name = "" then g
  else
    match idStatus entity_id with
    | .raiseErr => g
    | .withId new_id =>
        mapNode g node_id (fun n =>
          { n with
            source := if n.source.contains tag then n.source else n.source ++ [tag],
            NAME := if n.NAME.any (fun item => pyLower item == pyLower (pyStrip entity_name))
                    then n.NAME else n.NAME ++ [pyStrip entity_name],
            id := if n.id.contains new_id then n.id else n.id ++ [new_id] })
    | .withoutId =>
        mapNode g node_id (fun n =>
          { n with
            source := if n.source.contains tag then n.source else n.source ++ [tag],
            NAME := if n.NAME.any (fun item => pyLower item == pyLower (pyStrip entity_name))
                    then n.NAME else n.NAME ++ [pyStrip entity_name] })

/-- `KnowledgeGraphUpdater.create_new_entity`: create a node labelled via
the fixed mapping (upper-cased fallback), with `NAME = [name]`,
`source = ['pubtator_extraction']` and — when the id guard passes —
`id = [id]`.  An `AttributeError` from the id guard is caught inside the
method, so no node is created (`raiseErr`). -/
def create_new_entity (g : Graph) (entity_name entity_type : String)
    (entity_id : Option JVal) : Graph :=
  if pyStrip entity_name = "" then g
  else
    match idStatus entity_id with
    | .raiseErr => g
    | .withId i =>
        { g with
          nodes := g.nodes ++ [⟨g.nextId, labelFor entity_type, [pyStrip entity_name], [i], [tag]⟩],
          nextId := g.nextId + 1 }
    | .withoutId =>
        { g with
          nodes := g.nodes ++ [⟨g.nextId, labelFor entity_type, [pyStrip entity_name], [], [tag]⟩],
          nextId := g.nextId + 1 }

/-- `KnowledgeGraphUpdater.create_relationship`: re-validate the relation
type, look up each endpoint by case-insensitive `NAME` match with no label
restriction (`MATCH (a), (b) ... WITH a, b LIMIT 1`, modelled as the first
matching node for each name in store order), and create a directed edge
between the first such pair.  Returns whether an edge was created
(`result.single()` is a record iff the `MATCH` produced a row). -/
def create_relationship (valid : List String) (g : Graph)
    (entity1_name entity2_name rel_type : String) : Graph × Bool :=
  if entity1_name == "" || entity2_name == "" || rel_type == "" then (g, false)
  else
    let validated := validate_relation_type valid rel_type
    match g.nodes.find? (fun a => matchesName a (pyStrip entity1_name)),
          g.nodes.find? (fun b => matchesName b (pyStrip entity2_name)) with
    | some a, some b =>
        ({ g with edges := g.edges ++ [⟨validated, a.nodeId, b.nodeId, [tag]⟩] }, true)
    | _, _ => (g, false)

/-! ## The participant extractor -/

/-- `x.get("name", x) if isinstance(x, dict) else str(x)`: the per-participant
step of `extract_entities_from_relationship` before the final strip.  The
result is a raw Python value: the `name` field (any JSON value) or the dict
itself when the field is missing, or the `str()` coercion of a non-dict. -/
def keyedName (v : JVal) : JVal :=
  match v with
  | .jobj fs => match lookupField "name" fs with
      | some w => w
      | none => .jobj fs
  | .jstr s => .jstr s
  | w => .jstr (pyStr w)

/-- The final cleanup of an extracted participant
(`if entity1_name: entity1_name = entity1_name.strip()` followed by the
`return`):  a truthy string is stripped; a truthy non-string raises
`AttributeError` at `.strip()` (caught by the surrounding `try` of the
extractor); a falsy value is passed through unchanged and behaves as an
absent participant at the `if entity1_name and entity2_name` use site, which
is how it is modelled (`none`; the falsy empty string is kept as `some ""`,
equally falsy there). -/
def finalizeName (v : JVal) : Except Unit (Option String) :=
  if truthy v then
    match v with
    | .jstr s => .ok (some (pyStrip s))
    | _ => .error ()
  else
    match v with
    | .jstr s => .ok (some s)
    | _ => .ok none

/-- `"k" in rel` for the participant-pattern checks. -/
def hasField (k : String) (fs : List (String × JVal)) : Bool :=
  (lookupField k fs).isSome

/-- One entry of the generic-fallback scan of
`extract_entities_from_relationship`: `v.get("name", str(v))` for dicts
(raising when the `name` field is a non-string, since `name.strip()` is
called on it), `str(v)` otherwise. -/
def genericName (v : JVal) : Except Unit String :=
  match v with
  | .jobj fs => match lookupField "name" fs with
      | some (.jstr s) => .ok s
      | some _ => .error ()
      | none => .ok (pyStr (.jobj fs))
  | w => .ok (pyStr w)

/-- The generic-fallback collection loop: every non-`kg_relation_type`,
non-`None` value contributes its stripped name when non-empty. -/
def collectGeneric : List (String × JVal) → Except Unit (List String)
  | [] => .ok []
  | (k, v) :: rest =>
      if k = "kg_relation_type" then collectGeneric rest
      else match v with
        | .jnull => collectGeneric rest
        | w =>
          match genericName w with
          | .error e => .error e
          | .ok name =>
            match collectGeneric rest with
            | .error e => .error e
            | .ok names =>
                .ok (if pyStrip name = "" then names else pyStrip name :: names)

/-- Extract both participants for one of the known key-pair patterns. -/
def extractPair (rel : List (String × JVal)) (k1 k2 : String) :
    Except Unit (Option String × Option String) :=
  match lookupField k1 rel, lookupField k2 rel with
  | some v1, some v2 => do
      let n1 ← finalizeName (keyedName v1)
      let n2 ← finalizeName (keyedName v2)
      .ok (n1, n2)
  | _, _ => .ok (none, none)

/-- `KnowledgeGraphUpdater.extract_entities_from_relationship`: the
priority-ordered structural patterns (drug/disease, drug/gene, gene/disease,
protein/disease, drug/protein, drug1/drug2, pathway/first-other,
two-`protein`-keys, generic two-non-null fallback).  The surrounding
`try/except` maps any raised error to `(None, None)`. -/
def extract_entities_from_relationship (rel : List (String × JVal)) :
    Option String × Option String :=
  let res : Except Unit (Option String × Option String) :=
    if hasField "drug" rel && hasField "disease" rel then extractPair rel "drug" "disease"
    else if hasField "drug" rel && hasField "gene" rel then extractPair rel "drug" "gene"
    else if hasField "gene" rel && hasField "disease" rel then extractPair rel "gene" "disease"
    else if hasField "protein" rel && hasField "disease" rel then extractPair rel "protein" "disease"
    else if hasField "drug" rel && hasField "protein" rel then extractPair rel "drug" "protein"
    else if hasField "drug1" rel && hasField "drug2" rel then extractPair rel "drug1" "drug2"
    else if hasField "pathway" rel then
      match rel.find? (fun p => p.1 ≠ "pathway" && p.1 ≠ "kg_relation_type") with
      | some (_, v) =>
          if truthy v then
            match lookupField "pathway" rel with
            | some pv => do
                let n1 ← finalizeName (keyedName pv)
                let n2 ← finalizeName (keyedName v)
                .ok (n1, n2)
            | none => .ok (none, none)
          else .ok (none, none)
      | none => .ok (none, none)
    else
      let protein_keys := rel.filter (fun p =>
        strContains (pyLower p.1) "protein" && p.1 ≠ "kg_relation_type")
      match protein_keys with
      | p1 :: p2 :: _ => do
          let n1 ← finalizeName (keyedName p1.2)
          let n2 ← finalizeName (keyedName p2.2)
          .ok (n1, n2)
      | _ =>
          match collectGeneric rel with
          | .error e => .error e
          | .ok (e1 :: e2 :: _) => .ok (some e1, some e2)
          | .ok _ => .ok (none, none)
  match res with
  | .ok p => p
  | .error _ => (none, none)

/-! ## The batch summary -/

/-- One record of the capped `new_entity_details` list (`id` keeps the raw
JSON value of the record's `id` field, as the source does). -/
structure EntityDetail where
  name : String
  ty : String
  id : Option JVal
  document : String

/-- One record of the `new_relationship_details` list. -/
structure RelDetail where
  entity1 : String
  entity2 : String
  ty : String
  document : String

/-- `self.total_summary`: the batch accumulator. -/
structure Summary where
  new_entities : Nat
  updated_entities : Nat
  new_relationships : Nat
  processed_documents : Nat
  failed_documents : Nat
  entity_breakdown : List (String × Nat)
  relationship_breakdown : List (String × Nat)
  new_entity_details : List EntityDetail
  new_relationship_details : List RelDetail

/-- The summary as initialised in `__init__`. -/
def initSummary : Summary := ⟨0, 0, 0, 0, 0, [], [], [], []⟩

/-- `if k not in m: m[k] = 0` followed by `m[k] += 1` on an insertion-ordered
dict. -/
def bump (m : List (String × Nat)) (k : String) : List (String × Nat) :=
  if (m.find? (fun p => p.1 = k)).isSome then
    m.map (fun p => if p.1 = k then (p.1, p.2 + 1) else p)
  else m ++ [(k, 1)]

/-- Summary bookkeeping of the new-entity branch of
`process_document_data`. -/
def incNewEntity (s : Summary) (name ty : String) (eid : Option JVal) (doc : String) : Summary :=
  { s with
    new_entities := s.new_entities + 1,
    entity_breakdown := bump s.entity_breakdown ty,
    new_entity_details := s.new_entity_details ++ [⟨name, ty, eid, doc⟩] }

/-- Summary bookkeeping of the updated-entity branch. -/
def incUpdated (s : Summary) : Summary :=
  { s with updated_entities := s.updated_entities + 1 }

/-- Summary bookkeeping of the new-relationship branch. -/
def incNewRel (s : Summary) (n1 n2 ty doc : String) : Summary :=
  { s with
    new_relationships := s.new_relationships + 1,
    relationship_breakdown := bump s.relationship_breakdown ty,
    new_relationship_details := s.new_relationship_details ++ [⟨n1, n2, ty, doc⟩] }

/-- `KnowledgeGraphUpdater.mark_document_failed`. -/
def markFailed (s : Summary) : Summary :=
  { s with failed_documents := s.failed_documents + 1 }

/-- `self.total_summary['processed_documents'] += 1`. -/
def incProcessed (s : Summary) : Summary :=
  { s with processed_documents := s.processed_documents + 1 }

/-! ## The document orchestrator -/

/-- Store-fault schedule for processing one entity candidate.  `lookupErr`:
`tx.run` raises inside `entity_exists` (caught there, treated as not
found).  `readOuterErr`: `session.execute_read` itself raises (caught by the
per-entity handler, nothing else happens).  `writeInnerErr`: `tx.run` raises
inside `update_existing_entity` / `create_new_entity` (caught there, so no
mutation, but the caller still counts).  `writeOuterErr`:
`session.execute_write` raises at session level, so nothing was committed
and the per-entity handler skips the counting. -/
structure EntityFaults where
  lookupErr : Bool
  readOuterErr : Bool
  writeInnerErr : Bool
  writeOuterErr : Bool

/-- The fault-free schedule (a healthy store). -/
def noFaults : EntityFaults := ⟨false, false, false, false⟩

/-- The per-candidate body of the entity loop of `process_document_data`
(lines guarded by `if entity_name and entity_name != "Unknown"`), with an
explicit store-fault schedule; `entity_name` arrives already stripped. -/
def processOneEntityF (f : EntityFaults) (g : Graph) (s : Summary)
    (doc_id entity_type entity_name : String) (entity_id : Option JVal) :
    Graph × Summary :=
  if f.readOuterErr then (g, s)
  else
    let found := if f.lookupErr then none else entity_exists g entity_name entity_type
    match found with
    | some node_id =>
        let g' := if f.writeInnerErr then g
                  else update_existing_entity g entity_name entity_type entity_id node_id
        if f.writeOuterErr then (g, s) else (g', incUpdated s)
    | none =>
        let g' := if f.writeInnerErr then g
                  else create_new_entity g entity_name entity_type entity_id
        if f.writeOuterErr then (g, s)
        else (g', incNewEntity s entity_name entity_type entity_id doc_id)

/-- The per-candidate entity body against a healthy store. -/
def processOneEntity (g : Graph) (s : Summary)
    (doc_id entity_type entity_name : String) (entity_id : Option JVal) :
    Graph × Summary :=
  processOneEntityF noFaults g s doc_id entity_type entity_name entity_id

/-- Engine state threaded through a document: graph plus summary. -/
abbrev St := Graph × Summary

/-- Process one element of an entity list: non-dicts are skipped; a
non-string `name` field raises at `.strip()` and aborts the document
(the error carries the state reached so far); empty and `"Unknown"` names
are skipped. -/
def processEntityRecord (g : Graph) (s : Summary) (doc_id entity_type : String)
    (e : JVal) : Except St St :=
  match e with
  | .jobj fs =>
      match lookupField "name" fs with
      | some (.jstr raw) =>
          let entity_name := pyStrip raw
          let entity_id := lookupField "id" fs
          if entity_name ≠ "" ∧ entity_name ≠ "Unknown" then
            .ok (processOneEntity g s doc_id entity_type entity_name entity_id)
          else .ok (g, s)
      | none =>
          .ok (g, s)
      | some _ => .error (g, s)
  | _ => .ok (g, s)

/-- Fold `processEntityRecord` over one entity list. -/
def processEntityList (g : Graph) (s : Summary) (doc_id entity_type : String) :
    List JVal → Except St St
  | [] => .ok (g, s)
  | e :: rest =>
      match processEntityRecord g s doc_id entity_type e with
      | .ok (g', s') => processEntityList g' s' doc_id entity_type rest
      | .error st => .error st

/-- The fixed `(payload key, coarse type)` aliases of the entity loop. -/
def entityKeyTypes : List (String × String) :=
  [("medications", "drug"), ("medication_entities", "drug"),
   ("diseases", "disease"), ("disease_entities", "disease"),
   ("genes", "gene"), ("genes_proteins", "gene"),
   ("gene_protein_entities", "gene")]

/-- The entity phase of `process_document_data`: for each recognized key,
`data.get(key, [])` is iterated when it is a list. -/
def entityPhaseAux (g : Graph) (s : Summary) (doc_id : String)
    (data : List (String × JVal)) : List (String × String) → Except St St
  | [] => .ok (g, s)
  | (key, ty) :: rest =>
      match lookupField key data with
      | some (.jlist es) =>
          match processEntityList g s doc_id ty es with
          | .ok (g', s') => entityPhaseAux g' s' doc_id data rest
          | .error st => .error st
      | _ => entityPhaseAux g s doc_id data rest

/-- Entity phase entry point. -/
def entityPhase (g : Graph) (s : Summary) (doc_id : String)
    (data : List (String × JVal)) : Except St St :=
  entityPhaseAux g s doc_id data entityKeyTypes

/-- The fixed key → default relation type mapping
(`relationship_mappings`). -/
def relationship_mappings : List (String × String) :=
  [("drug_disease_relationships", "DRUG_DISEASE_ASSOCIATION"),
   ("drug_gene_relationships", "DPI"),
   ("gene_disease_relationships", "PROTEIN_DISEASE_ASSOCIATION"),
   ("protein_disease_relationships", "PROTEIN_DISEASE_ASSOCIATION"),
   ("drug_drug_relationships", "DDI"),
   ("drug_interaction_relationships", "DDI"),
   ("protein_protein_relationships", "PPI"),
   ("gene_gene_relationships", "PPI"),
   ("drug_target_relationships", "DRUG_TARGET"),
   ("drug_carrier_relationships", "DRUG_CARRIER"),
   ("drug_enzyme_relationships", "DRUG_ENZYME"),
   ("drug_transporter_relationships", "DRUG_TRANSPORTER"),
   ("drug_pathway_relationships", "DRUG_PATHWAY_ASSOCIATION"),
   ("disease_pathway_relationships", "DISEASE_PATHWAY_ASSOCIATION"),
   ("protein_pathway_relationships", "PROTEIN_PATHWAY_ASSOCIATION"),
   ("genetic_disorder_relationships", "RELATED_GENETIC_DISORDER"),
   ("disease_genetic_relationships", "DISEASE_GENETIC_DISORDER"),
   ("pathway_complex_relationships", "COMPLEX_IN_PATHWAY"),
   ("top_level_pathway_relationships", "COMPLEX_TOP_LEVEL_PATHWAY")]

/-- `relationship_mappings.get(key, "RELATIONSHIP")`. -/
def defaultRelTypeFor (key : String) : String :=
  match (relationship_mappings.find? (fun p => p.1 = key)).map (fun p => p.2) with
  | some t => t
  | none => "RELATIONSHIP"

/-- `key.endswith('_relationships') or 'relationship' in key.lower()`. -/
def isRelKey (key : String) : Bool :=
  endsWithStr key "_relationships" || strContains (pyLower key) "relationship"

/-- `rel.get("kg_relation_type", default)` followed by the
`== "Not specified" or not kg_rel_type` fallback.  A truthy non-string field
value flows into `validate_relation_type`, whose `.strip()` raises outside
any per-record handler and aborts the document (`error`). -/
def resolveKgType (dflt : String) (rel : List (String × JVal)) : Except Unit String :=
  match lookupField "kg_relation_type" rel with
  | none => .ok dflt
  | some (.jstr s) => .ok (if s = "Not specified" ∨ s = "" then dflt else s)
  | some .jnull => .ok dflt
  | some (.jobj fs) => if fs.isEmpty then .ok dflt else .error ()
  | some (.jlist xs) => if xs.isEmpty then .ok dflt else .error ()

/-- The exists-check / create pair of the relationship loop (`if not
exists: create_relationship`).  Returns the new graph and whether an edge
was created. -/
def relFlow (valid : List String) (g : Graph) (n1 n2 rel_type : String) : Graph × Bool :=
  if relationship_exists g n1 n2 rel_type then (g, false)
  else create_relationship valid g n1 n2 rel_type

/-- Process one element of a relationship list: resolve the relation type
(possibly aborting the document), validate it, extract the participants, and
— when both are truthy — run the exists/create flow, counting a created
edge. -/
def processRelRecord (valid : List String) (g : Graph) (s : Summary)
    (doc_id key : String) (r : JVal) : Except St St :=
  match r with
  | .jobj fs =>
      match resolveKgType (defaultRelTypeFor key) fs with
      | .error _ => .error (g, s)
      | .ok kg =>
          let validated := validate_relation_type valid kg
          match extract_entities_from_relationship fs with
          | (some n1, some n2) =>
              if n1 ≠ "" ∧ n2 ≠ "" then
                match relFlow valid g n1 n2 validated with
                | (g', true) => .ok (g', incNewRel s n1 n2 validated doc_id)
                | (g', false) => .ok (g', s)
              else .ok (g, s)
          | _ => .ok (g, s)
  | _ => .ok (g, s)

/-- Fold `processRelRecord` over one relationship list. -/
def processRelList (valid : List String) (g : Graph) (s : Summary)
    (doc_id key : String) : List JVal → Except St St
  | [] => .ok (g, s)
  | r :: rest =>
      match processRelRecord valid g s doc_id key r with
      | .ok (g', s') => processRelList valid g' s' doc_id key rest
      | .error st => .error st

/-- The relationship phase: iterate every payload item whose key is
recognized as a relationship list and whose value is a list. -/
def relPhaseAux (valid : List String) (g : Graph) (s : Summary) (doc_id : String) :
    List (String × JVal) → Except St St
  | [] => .ok (g, s)
  | (key, v) :: rest =>
      match v with
      | .jlist rs =>
          if isRelKey key then
            match processRelList valid g s doc_id key rs with
            | .ok (g', s') => relPhaseAux valid g' s' doc_id rest
            | .error st => .error st
          else relPhaseAux valid g s doc_id rest
      | _ => relPhaseAux valid g s doc_id rest

/-- Relationship phase entry point (iterates `data.items()` in order). -/
def relPhase (valid : List String) (g : Graph) (s : Summary) (doc_id : String)
    (data : List (String × JVal)) : Except St St :=
  relPhaseAux valid g s doc_id data

/-- The parse status of a document's `analysis` field.  `missing` covers an
absent field, `None` and the empty string (all falsy, triggering the early
return); `invalid s` is a non-empty string on which
`json.loads(clean_json_string(s))` raises `JSONDecodeError`; `parsed v` is a
successful parse yielding `v` (fence stripping by `clean_json_string` is
absorbed into this status). -/
inductive Analysis where
  | missing : Analysis
  | invalid : String → Analysis
  | parsed : JVal → Analysis

/-- One element of the analysis-results batch. -/
structure Document where
  document_id : String
  analysis : Analysis

/-- How one document ended. -/
inductive Outcome where
  | skipped : Outcome
  | processed : Outcome
  | failed : Outcome
deriving DecidableEq, Repr

/-- `KnowledgeGraphUpdater.process_document_data` for one document, combined
with the `except` handler of `main` that calls `mark_document_failed`: an
empty/absent `analysis` returns early touching nothing; a parse failure (or
a parse result that is not a JSON object, on which `data.keys()` raises
before any store access) marks the document failed; otherwise the entity
phase then the relationship phase run, any uncaught per-document exception
marking the document failed with the partially-updated state kept, and
success incrementing `processed_documents`. -/
def processParsedObj (valid : List String) (g : Graph) (s : Summary)
    (did : String) (data : List (String × JVal)) : Graph × Summary × Outcome :=
  match entityPhase g s did data with
  | .error (g', s') => (g', markFailed s', .failed)
  | .ok (g1, s1) =>
      match relPhase valid g1 s1 did data with
      | .error (g', s') => (g', markFailed s', .failed)
      | .ok (g2, s2) => (g2, incProcessed s2, .processed)

/-- Dispatch on the parse status (see `processParsedObj` for the two-phase
body run on a successfully parsed JSON object). -/
def processDocumentData (valid : List String) (g : Graph) (s : Summary)
    (doc : Document) : Graph × Summary × Outcome :=
  match doc.analysis with
  | .missing => (g, s, .skipped)
  | .invalid _ => (g, markFailed s, .failed)
  | .parsed (.jobj data) => processParsedObj valid g s doc.document_id data
  | .parsed _ => (g, markFailed s, .failed)

/-- One iteration of the batch loop of `main`. -/
def runDoc (valid : List String) (st : St) (doc : Document) : St :=
  let r := processDocumentData valid st.1 st.2 doc
  (r.1, r.2.1)

/-- The batch loop of `main` over the analysis-results list. -/
def runBatch (valid : List String) (st : St) (docs : List Document) : St :=
  docs.foldl (runDoc valid) st

/-! ## Well-formedness of the store

Neo4j element ids are unique and fresh; the shallow model keeps that as an
explicit invariant of `Graph`, preserved by every engine operation. -/

/-- Element ids are pairwise distinct and below the generator. -/
def WF (g : Graph) : Prop :=
  (g.nodes.map (fun n => n.nodeId)).Nodup ∧ ∀ n ∈ g.nodes, n.nodeId < g.nextId

instance (g : Graph) : Decidable (WF g) := by
  unfold WF; infer_instance

/-! ## Basic lemmas -/

theorem any_congr {α : Type} (l : List α) (f h : α → Bool) (H : ∀ a ∈ l, f a = h a) :
    l.any f = l.any h := by
  induction l with
  | nil => rfl
  | cons x xs ih =>
      simp only [List.any_cons]
      rw [H x (by simp), ih (fun a ha => H a (by simp [ha]))]

theorem map_eq_self {α : Type} (l : List α) (f : α → α) (H : ∀ a ∈ l, f a = a) :
    l.map f = l := by
  induction l with
  | nil => rfl
  | cons x xs ih =>
      simp only [List.map_cons]
      rw [H x (by simp), ih (fun a ha => H a (by simp [ha]))]

theorem getNode_mem {g : Graph} {i : Nat} {n : Node} (h : getNode g i = some n) :
    n ∈ g.nodes ∧ n.nodeId = i := by
  refine ⟨List.mem_of_find?_eq_some h, ?_⟩
  have := List.find?_some h
  simpa using this

theorem WF_unique {g : Graph} (hWF : WF g) {a b : Node}
    (ha : a ∈ g.nodes) (hb : b ∈ g.nodes) (hid : a.nodeId = b.nodeId) : a = b := by
  obtain ⟨hnd, -⟩ := hWF
  have := List.inj_on_of_nodup_map hnd
  exact this ha hb hid

theorem WF_getNode_self {g : Graph} (hWF : WF g) {n : Node} (hn : n ∈ g.nodes) :
    getNode g n.nodeId = some n := by
  unfold getNode
  have hsome : (g.nodes.find? (fun m => m.nodeId == n.nodeId)).isSome := by
    rw [List.find?_isSome]
    exact ⟨n, hn, by simp⟩
  obtain ⟨m, hm⟩ := Option.isSome_iff_exists.1 hsome
  have hmm := List.mem_of_find?_eq_some hm
  have hmid : m.nodeId = n.nodeId := by simpa using List.find?_some hm
  rw [hm, WF_unique hWF hmm hn hmid]

/-! ## Claim C8: the relation-type validator -/

/-- Claim C8: `validate_relation_type` is a total function of its input (it
never raises: the embedding is a Lean function), and follows the four-case
priority chain: empty or whitespace-only input yields the fallback label
`"RELATIONSHIP"`; an exact catalog member is returned unchanged; otherwise a
case-insensitive catalog match returns the catalog's canonical casing (the
first such member); otherwise the raw input is returned unchanged. -/
theorem validate_relation_type_cases (valid : List String) (s : String) :
    (pyStrip s = "" → validate_relation_type valid s = "RELATIONSHIP") ∧
    (pyStrip s ≠ "" → valid.contains s = true → validate_relation_type valid s = s) ∧
    (pyStrip s ≠ "" → valid.contains s = false →
      ∀ v, valid.find? (fun v => pyUpper v == pyUpper s) = some v →
        validate_relation_type valid s = v) ∧
    (pyStrip s ≠ "" → valid.contains s = false →
      valid.find? (fun v => pyUpper v == pyUpper s) = none →
      validate_relation_type valid s = s) := by
  refine ⟨?_, ?_, ?_, ?_⟩
  · intro h; unfold validate_relation_type; rw [if_pos h]
  · intro h hc; unfold validate_relation_type
    rw [if_neg h, if_pos hc]
  · intro h hc v hv; unfold validate_relation_type
    rw [if_neg h, if_neg (by rw [hc]; exact Bool.false_ne_true), hv]
  · intro h hc hv; unfold validate_relation_type
    rw [if_neg h, if_neg (by rw [hc]; exact Bool.false_ne_true), hv]

/-- Witness for C8: a concrete instance of each interesting case. -/
theorem validate_relation_type_cases_witness :
    pyStrip "ddi" ≠ "" ∧ defaultRelationTypes.contains "ddi" = false ∧
    validate_relation_type defaultRelationTypes "ddi" = "DDI" ∧
    validate_relation_type defaultRelationTypes "  " = "RELATIONSHIP" ∧
    validate_relation_type defaultRelationTypes "novel_type" = "novel_type" := by
  refine ⟨by decide, by decide, ?_, ?_, ?_⟩
  · exact (validate_relation_type_cases defaultRelationTypes "ddi").2.2.1
      (by decide) (by decide) "DDI" (by decide)
  · exact (validate_relation_type_cases defaultRelationTypes "  ").1 (by decide)
  · exact (validate_relation_type_cases defaultRelationTypes "novel_type").2.2.2
      (by decide) (by decide) (by decide)

/-! ## Claim C10: missing analysis field -/

/-- Claim C10: a document whose `analysis` field is missing, `None` or the
empty string makes `process_document_data` return early without raising,
leaving both the graph and the whole summary untouched, so the document is
counted as neither processed nor failed and the sum of the two counters can
be strictly smaller than the batch size. -/
theorem missing_analysis_skipped :
    (∀ (valid : List String) (g : Graph) (s : Summary) (did : String),
      processDocumentData valid g s ⟨did, .missing⟩ = (g, s, .skipped)) ∧
    (∀ (valid : List String) (g : Graph) (did : String),
      (runBatch valid (g, initSummary) [⟨did, .missing⟩]).2.processed_documents +
        (runBatch valid (g, initSummary) [⟨did, .missing⟩]).2.failed_documents
        < ([⟨did, Analysis.missing⟩] : List Document).length) := by
  constructor
  · intro valid g s did; rfl
  · intro valid g did
    simp [runBatch, runDoc, processDocumentData, initSummary]

/-! ## Claim C2: case-insensitive, label-scoped entity lookup -/

/-- Claim C2: `entity_exists` matches an existing node iff some element of
the node's `NAME` array equals the (stripped) candidate name after
lowercasing both, and the lookup is scoped to the label derived from the
coarse type via the fixed mapping table; when no such node exists under
that label (in particular when only a node of a different label carries the
name), `create_new_entity` creates a second, distinct node (fresh element
id, appended to the store) under the candidate's own label. -/
theorem entity_exists_case_insensitive_label_scoped :
    (∀ (g : Graph) (name ty : String),
      (entity_exists g name ty).isSome = true ↔
        (pyStrip name ≠ "" ∧ ∃ n ∈ g.nodes, n.label = labelFor ty ∧
          ∃ item ∈ n.NAME, pyLower item = pyLower (pyStrip name))) ∧
    (∀ (g : Graph) (name ty : String) (eid : Option JVal),
      entity_exists g name ty = none → pyStrip name ≠ "" → idStatus eid ≠ .raiseErr →
      ∃ ids, (create_new_entity g name ty eid).nodes =
        g.nodes ++ [⟨g.nextId, labelFor ty, [pyStrip name], ids, [tag]⟩]) := by
  constructor
  · intro g name ty
    by_cases h : pyStrip name = ""
    · simp [entity_exists, h]
    · simp [entity_exists, h, matchesName, List.find?_isSome, List.any_eq_true]
  · intro g name ty eid hnone hne hid
    unfold create_new_entity
    rw [if_neg hne]
    cases hst : idStatus eid with
    | raiseErr => exact absurd hst hid
    | withId i => exact ⟨[i], rfl⟩
    | withoutId => exact ⟨[], rfl⟩

/-- Witness for C2: concrete store with a `DRUG` node named `"Aspirin"`:
found by `"aspirin"`, `"ASPIRIN"`, `"AsPiRiN"` under coarse type `drug`, not
matched under coarse type `disease`, where a second, distinct node is
created instead. -/
theorem entity_exists_case_insensitive_label_scoped_witness :
    (entity_exists ⟨[⟨0, "DRUG", ["Aspirin"], [], []⟩], [], 1⟩ "aspirin" "drug").isSome = true ∧
    (entity_exists ⟨[⟨0, "DRUG", ["Aspirin"], [], []⟩], [], 1⟩ "ASPIRIN" "drug").isSome = true ∧
    (entity_exists ⟨[⟨0, "DRUG", ["Aspirin"], [], []⟩], [], 1⟩ "AsPiRiN" "drug").isSome = true ∧
    entity_exists ⟨[⟨0, "DRUG", ["Aspirin"], [], []⟩], [], 1⟩ "Aspirin" "disease" = none ∧
    ∃ ids, (create_new_entity ⟨[⟨0, "DRUG", ["Aspirin"], [], []⟩], [], 1⟩ "Aspirin" "disease" none).nodes =
      [⟨0, "DRUG", ["Aspirin"], [], []⟩] ++ [⟨1, labelFor "disease", ["Aspirin"], ids, [tag]⟩] := by
  refine ⟨?_, ?_, ?_, by decide, ?_⟩
  · exact ((entity_exists_case_insensitive_label_scoped).1 _ "aspirin" "drug").2
      ⟨by decide, ⟨0, "DRUG", ["Aspirin"], [], []⟩, by simp, by decide, "Aspirin", by simp, by decide⟩
  · exact ((entity_exists_case_insensitive_label_scoped).1 _ "ASPIRIN" "drug").2
      ⟨by decide, ⟨0, "DRUG", ["Aspirin"], [], []⟩, by simp, by decide, "Aspirin", by simp, by decide⟩
  · exact ((entity_exists_case_insensitive_label_scoped).1 _ "AsPiRiN" "drug").2
      ⟨by decide, ⟨0, "DRUG", ["Aspirin"], [], []⟩, by simp, by decide, "Aspirin", by simp, by decide⟩
  · have h := (entity_exists_case_insensitive_label_scoped).2
      ⟨[⟨0, "DRUG", ["Aspirin"], [], []⟩], [], 1⟩ "Aspirin" "disease" none
      (by decide) (by decide) (by decide)
    obtain ⟨ids, hids⟩ := h
    exact ⟨ids, by simpa using hids⟩

/-! ## Claim C4: label-agnostic relationship endpoint lookup -/

/-- Claim C4: `create_relationship` resolves its two endpoints by exact
case-insensitive `NAME` match only, with no restriction on the node label
(unlike `entity_exists`, which is label-scoped): an edge is created iff some
node — of any label — matches each name, and the endpoints chosen are the
first matching nodes in store order, so a node of a different label sharing
the name can be selected. -/
theorem create_relationship_label_agnostic (valid : List String) (g : Graph)
    (n1 n2 T : String) (h1 : n1 ≠ "") (h2 : n2 ≠ "") (hT : T ≠ "") :
    ((create_relationship valid g n1 n2 T).2 = true ↔
      ((∃ a ∈ g.nodes, matchesName a (pyStrip n1) = true) ∧
       (∃ b ∈ g.nodes, matchesName b (pyStrip n2) = true))) ∧
    (∀ a b, g.nodes.find? (fun x => matchesName x (pyStrip n1)) = some a →
            g.nodes.find? (fun x => matchesName x (pyStrip n2)) = some b →
            (create_relationship valid g n1 n2 T).1.edges =
              g.edges ++ [⟨validate_relation_type valid T, a.nodeId, b.nodeId, [tag]⟩]) := by
  constructor
  · have key : (create_relationship valid g n1 n2 T).2 =
        ((g.nodes.find? (fun x => matchesName x (pyStrip n1))).isSome &&
         (g.nodes.find? (fun x => matchesName x (pyStrip n2))).isSome) := by
      unfold create_relationship
      rw [if_neg (by simp [h1, h2, hT])]
      cases g.nodes.find? (fun x => matchesName x (pyStrip n1)) <;>
        cases g.nodes.find? (fun x => matchesName x (pyStrip n2)) <;> rfl
    rw [key]
    simp [List.find?_isSome]
  · intro a b hfa hfb
    unfold create_relationship
    rw [if_neg (by simp [h1, h2, hT]), hfa, hfb]

/-- Witness for C4: the store holds only a `DISEASE` node named
`"Insulin"`; a `DDI` relationship request between `"Insulin"` and
`"Insulin"` still resolves both endpoints to that node (no label
restriction) and creates the edge. -/
theorem create_relationship_label_agnostic_witness :
    ((create_relationship defaultRelationTypes
        ⟨[⟨0, "DISEASE", ["Insulin"], [], []⟩], [], 1⟩ "Insulin" "Insulin" "DDI").2 = true) ∧
    (create_relationship defaultRelationTypes
        ⟨[⟨0, "DISEASE", ["Insulin"], [], []⟩], [], 1⟩ "Insulin" "Insulin" "DDI").1.edges =
      [] ++ [⟨validate_relation_type defaultRelationTypes "DDI", 0, 0, [tag]⟩] := by
  constructor
  · exact ((create_relationship_label_agnostic defaultRelationTypes
      ⟨[⟨0, "DISEASE", ["Insulin"], [], []⟩], [], 1⟩ "Insulin" "Insulin" "DDI"
      (by decide) (by decide) (by decide)).1).2
      ⟨⟨⟨0, "DISEASE", ["Insulin"], [], []⟩, by simp, by decide⟩,
       ⟨⟨0, "DISEASE", ["Insulin"], [], []⟩, by simp, by decide⟩⟩
  · exact ((create_relationship_label_agnostic defaultRelationTypes
      ⟨[⟨0, "DISEASE", ["Insulin"], [], []⟩], [], 1⟩ "Insulin" "Insulin" "DDI"
      (by decide) (by decide) (by decide)).2)
      ⟨0, "DISEASE", ["Insulin"], [], []⟩ ⟨0, "DISEASE", ["Insulin"], [], []⟩
      (by decide) (by decide)

/-! ## Claim C7: unresolvable endpoint requests are no-ops -/

theorem relationship_exists_false_of_no_match1 (g : Graph) (n1 n2 T : String)
    (h : ∀ a ∈ g.nodes, matchesName a (pyStrip n1) = false) :
    relationship_exists g n1 n2 T = false := by
  unfold relationship_exists
  split
  · rfl
  · rw [List.any_eq_false]
    intro e _
    cases hsa : getNode g e.src with
    | none => simp [hsa]
    | some a =>
        cases hsb : getNode g e.dst with
        | none => simp [hsa, hsb]
        | some b =>
            have ha := (getNode_mem hsa).1
            have hb := (getNode_mem hsb).1
            simp [hsa, hsb, h a ha, h b hb]

theorem relationship_exists_false_of_no_match2 (g : Graph) (n1 n2 T : String)
    (h : ∀ b ∈ g.nodes, matchesName b (pyStrip n2) = false) :
    relationship_exists g n1 n2 T = false := by
  unfold relationship_exists
  split
  · rfl
  · rw [List.any_eq_false]
    intro e _
    cases hsa : getNode g e.src with
    | none => simp [hsa]
    | some a =>
        cases hsb : getNode g e.dst with
        | none => simp [hsa, hsb]
        | some b =>
            have ha := (getNode_mem hsa).1
            have hb := (getNode_mem hsb).1
            simp [hsa, hsb, h a ha, h b hb]

theorem relFlow_noop_of_unresolved (valid : List String) (g : Graph) (n1 n2 T : String)
    (hun : (∀ a ∈ g.nodes, matchesName a (pyStrip n1) = false) ∨
           (∀ b ∈ g.nodes, matchesName b (pyStrip n2) = false)) :
    relFlow valid g n1 n2 T = (g, false) := by
  unfold relFlow
  split
  · rfl
  · unfold create_relationship
    split
    · rfl
    · rcases hun with hu | hu
      · have hn : g.nodes.find? (fun a => matchesName a (pyStrip n1)) = none :=
          List.find?_eq_none.mpr (fun x hx => by simp [hu x hx])
        rw [hn]
      · have hn : g.nodes.find? (fun b => matchesName b (pyStrip n2)) = none :=
          List.find?_eq_none.mpr (fun x hx => by simp [hu x hx])
        rw [hn]
        cases g.nodes.find? (fun a => matchesName a (pyStrip n1)) <;> rfl

/-- Claim C7: a relationship request in which at least one participant name
matches no node's `NAME` array (case-insensitively) is a no-op: the record
is processed without any exception (`.ok`), the graph is unmutated, and the
summary is untouched (neither counted as a new relationship nor as a
failure). -/
theorem unresolved_endpoint_noop (valid : List String) (g : Graph) (s : Summary)
    (doc_id key : String) (fs : List (String × JVal)) (n1 n2 kg : String)
    (hx : extract_entities_from_relationship fs = (some n1, some n2))
    (hkg : resolveKgType (defaultRelTypeFor key) fs = .ok kg)
    (hun : (∀ a ∈ g.nodes, matchesName a (pyStrip n1) = false) ∨
           (∀ b ∈ g.nodes, matchesName b (pyStrip n2) = false)) :
    processRelRecord valid g s doc_id key (.jobj fs) = .ok (g, s) := by
  simp only [processRelRecord, hkg, hx]
  by_cases h12 : n1 ≠ "" ∧ n2 ≠ ""
  · rw [if_pos h12, relFlow_noop_of_unresolved valid g n1 n2 _ hun]
  · rw [if_neg h12]

/-- Witness for C7: a drug/disease record whose participants resolve to
names absent from an empty store. -/
theorem unresolved_endpoint_noop_witness :
    processRelRecord defaultRelationTypes ⟨[], [], 0⟩ initSummary "doc1"
      "drug_disease_relationships"
      (.jobj [("drug", .jstr "Novoline"), ("disease", .jstr "Diabetes")]) =
      .ok (⟨[], [], 0⟩, initSummary) := by
  exact unresolved_endpoint_noop defaultRelationTypes ⟨[], [], 0⟩ initSummary "doc1"
    "drug_disease_relationships" [("drug", .jstr "Novoline"), ("disease", .jstr "Diabetes")]
    "Novoline" "Diabetes" "DRUG_DISEASE_ASSOCIATION"
    (by decide) (by rfl) (.inl (by intro a ha; simp at ha))

/-! ## Claim C6 (corrected): store errors are caught, but a lookup error
still creates a node and a write error is still counted -/

/-- Counterexample to claim C6 as stated: with a store error raised inside
the create write (caught inside `create_new_entity`), processing the
candidate `"Aspirin"` leaves the graph untouched (no entity created), yet
`new_entities` is still incremented from 0 to 1 by the caller — the claim's
"it is not counted among the batch summary's new or updated entities" is
false on the code, which increments its counters without checking the
write's result. -/
theorem store_error_still_counted_cex :
    (processOneEntityF ⟨false, false, true, false⟩ ⟨[], [], 0⟩ initSummary
        "doc1" "drug" "Aspirin" none).1 = ⟨[], [], 0⟩ ∧
    (processOneEntityF ⟨false, false, true, false⟩ ⟨[], [], 0⟩ initSummary
        "doc1" "drug" "Aspirin" none).2.new_entities = 1 := by
  constructor
  · rfl
  · rfl

/-- Claim C6 as amended, one conjunct per fault site.  A lookup error
caught inside `entity_exists` makes the candidate be treated as not found,
so the subsequent healthy write runs `create_new_entity` and counts the
candidate as new — when the name is non-empty and the id guard does not
raise, this appends a fresh node (even if a matching entity already
exists).  A write error caught inside `create_new_entity` /
`update_existing_entity` leaves the store unmutated, but the caller still
counts the candidate as exactly one new or updated entity, touching no
document counter.  Only errors that escape to the per-entity handler (a
session-level read or write failure) leave both the store and the summary
unchanged.  In every schedule the candidate's processing returns normally,
so the rest of the document continues. -/
theorem store_error_fault_schedules (g : Graph) (s : Summary)
    (d ty name : String) (eid : Option JVal) :
    processOneEntityF ⟨true, false, false, false⟩ g s d ty name eid =
      (create_new_entity g name ty eid, incNewEntity s name ty eid d) ∧
    (pyStrip name ≠ "" → idStatus eid ≠ .raiseErr →
      (create_new_entity g name ty eid).nodes.length = g.nodes.length + 1) ∧
    (processOneEntityF ⟨false, false, true, false⟩ g s d ty name eid).1 = g ∧
    ((processOneEntityF ⟨false, false, true, false⟩ g s d ty name eid).2.new_entities +
      (processOneEntityF ⟨false, false, true, false⟩ g s d ty name eid).2.updated_entities =
      s.new_entities + s.updated_entities + 1) ∧
    ((processOneEntityF ⟨false, false, true, false⟩ g s d ty name eid).2.processed_documents =
      s.processed_documents) ∧
    ((processOneEntityF ⟨false, false, true, false⟩ g s d ty name eid).2.failed_documents =
      s.failed_documents) ∧
    processOneEntityF ⟨false, true, false, false⟩ g s d ty name eid = (g, s) ∧
    processOneEntityF ⟨false, false, false, true⟩ g s d ty name eid = (g, s) := by
  refine ⟨rfl, ?_, ?_⟩
  · intro hs hid
    unfold create_new_entity
    rw [if_neg hs]
    cases hidc : idStatus eid with
    | raiseErr => exact absurd hidc hid
    | withId i => simp
    | withoutId => simp
  · unfold processOneEntityF
    cases entity_exists g name ty <;>
      simp [incNewEntity, incUpdated] <;> omega

/-- Witness for the amended C6: against a store already holding an
`"Aspirin"` DRUG node, a helper-caught lookup error with a healthy write
duplicates the entity — the node count grows from 1 to 2 and the candidate
is counted as new. -/
theorem store_error_fault_schedules_witness :
    pyStrip "Aspirin" ≠ "" ∧ idStatus (none : Option JVal) ≠ IdStatus.raiseErr ∧
    (processOneEntityF ⟨true, false, false, false⟩
        ⟨[⟨0, "DRUG", ["Aspirin"], [], [tag]⟩], [], 1⟩
        initSummary "doc1" "drug" "Aspirin" none).1.nodes.length = 2 ∧
    (processOneEntityF ⟨true, false, false, false⟩
        ⟨[⟨0, "DRUG", ["Aspirin"], [], [tag]⟩], [], 1⟩
        initSummary "doc1" "drug" "Aspirin" none).2.new_entities = 1 := by
  obtain ⟨h1, h2, -, -, -, -, -, -⟩ := store_error_fault_schedules
    ⟨[⟨0, "DRUG", ["Aspirin"], [], [tag]⟩], [], 1⟩ initSummary "doc1" "drug" "Aspirin" none
  refine ⟨by decide, by decide, ?_, ?_⟩
  · rw [h1]
    exact h2 (by decide) (by decide)
  · rw [h1]
    rfl

/-! ## Claim C9: per-record relation-type resolution -/

/-- Claim C9: for a payload key recognized as a relationship list, the
relation type for a record defaults to the fixed key → type mapping's entry
(falling back to `"RELATIONSHIP"` for unmapped keys), and the record's
`kg_relation_type` field overrides that default exactly when it is present
as a non-empty string different from the `"Not specified"` sentinel. -/
theorem relation_type_resolution (key : String) (rel : List (String × JVal))
    (hk : isRelKey key = true) :
    ((relationship_mappings.find? (fun p => p.1 = key)) = none →
      defaultRelTypeFor key = "RELATIONSHIP") ∧
    (lookupField "kg_relation_type" rel = none →
      resolveKgType (defaultRelTypeFor key) rel = .ok (defaultRelTypeFor key)) ∧
    (∀ s, lookupField "kg_relation_type" rel = some (.jstr s) →
      resolveKgType (defaultRelTypeFor key) rel =
        .ok (if s = "Not specified" ∨ s = "" then defaultRelTypeFor key else s)) := by
  refine ⟨?_, ?_, ?_⟩
  · intro h; unfold defaultRelTypeFor; rw [h]; rfl
  · intro h; unfold resolveKgType; rw [h]
  · intro s h; unfold resolveKgType; rw [h]

/-- Witness for C9: concrete mapped key without and with an explicit
override, sentinel override ignored, and an unmapped relationship key
defaulting to `"RELATIONSHIP"`. -/
theorem relation_type_resolution_witness :
    isRelKey "drug_gene_relationships" = true ∧
    resolveKgType (defaultRelTypeFor "drug_gene_relationships") [("drug", .jstr "A")] =
      .ok "DPI" ∧
    resolveKgType (defaultRelTypeFor "drug_gene_relationships")
      [("kg_relation_type", .jstr "DRUG_TARGET")] = .ok "DRUG_TARGET" ∧
    resolveKgType (defaultRelTypeFor "drug_gene_relationships")
      [("kg_relation_type", .jstr "Not specified")] = .ok "DPI" ∧
    defaultRelTypeFor "custom_relationships" = "RELATIONSHIP" := by
  refine ⟨by decide, ?_, ?_, ?_, ?_⟩
  · have h := (relation_type_resolution "drug_gene_relationships" [("drug", .jstr "A")]
      (by decide)).2.1 (by rfl)
    simpa using h
  · have h := (relation_type_resolution "drug_gene_relationships"
      [("kg_relation_type", .jstr "DRUG_TARGET")] (by decide)).2.2 "DRUG_TARGET" (by rfl)
    simpa using h
  · have h := (relation_type_resolution "drug_gene_relationships"
      [("kg_relation_type", .jstr "Not specified")] (by decide)).2.2 "Not specified" (by rfl)
    simpa using h
  · exact (relation_type_resolution "custom_relationships" [] (by decide)).1 (by rfl)

/-! ## Claim C3: relationship identity is type + unordered pair -/

/-- Spec measurement: the number of edges of the given type connecting the
two named entities in either direction — the quantity whose non-emptiness
`relationship_exists` tests (same per-edge predicate). -/
def countEdges (g : Graph) (n1 n2 T : String) : Nat :=
  (g.edges.filter (fun e =>
    e.relType == T &&
    (match getNode g e.src, getNode g e.dst with
     | some a, some b =>
        (matchesName a (pyStrip n1) && matchesName b (pyStrip n2)) ||
        (matchesName a (pyStrip n2) && matchesName b (pyStrip n1))
     | _, _ => false))).length

/-- Claim C3: relationship existence is judged on the type and the
unordered entity pair — `relationship_exists` is symmetric in the two
names — and once the exists/create flow has created an `A -[T]-> B` edge, a
request for `B -[T]-> A` of the same type reports it as already existing
(`created = false`), performs no mutation, and the number of `T`-edges
between the pair stays exactly 1. -/
theorem relationship_identity_unordered (valid : List String) (g : Graph)
    (A B T : String) (hWF : WF g) (hT : validate_relation_type valid T = T) :
    (relationship_exists g A B T = relationship_exists g B A T) ∧
    ((relFlow valid g A B T).2 = true →
      relFlow valid (relFlow valid g A B T).1 B A T = ((relFlow valid g A B T).1, false) ∧
      countEdges (relFlow valid g A B T).1 A B T = 1) := by
  constructor
  · unfold relationship_exists
    by_cases hg : (A == "" || B == "" || T == "") = true
    · have hg' : (B == "" || A == "" || T == "") = true := by
        rcases (by simpa [or_assoc] using hg : A = "" ∨ B = "" ∨ T = "") with h | h | h <;> simp [h]
      rw [if_pos hg, if_pos hg']
    · have hg' : ¬(B == "" || A == "" || T == "") = true := by
        simp only [Bool.or_eq_true, beq_iff_eq] at hg ⊢
        tauto
      rw [if_neg hg, if_neg hg']
      apply any_congr
      intro e _
      cases getNode g e.src <;> cases getNode g e.dst <;> simp [Bool.or_comm]
  · intro hcr
    have hex : relationship_exists g A B T = false := by
      by_contra h
      have h' : relationship_exists g A B T = true := by
        cases hh : relationship_exists g A B T
        · exact absurd hh h
        · rfl
      simp [relFlow, h'] at hcr
    have hrf : relFlow valid g A B T = create_relationship valid g A B T := by
      simp [relFlow, hex]
    rw [hrf] at hcr ⊢
    by_cases hg : (A == "" || B == "" || T == "") = true
    · unfold create_relationship at hcr
      rw [if_pos hg] at hcr; exact absurd hcr (by simp)
    · cases hfa : g.nodes.find? (fun a => matchesName a (pyStrip A)) with
      | none =>
          unfold create_relationship at hcr
          rw [if_neg hg, hfa] at hcr; exact absurd hcr (by simp)
      | some a =>
        cases hfb : g.nodes.find? (fun b => matchesName b (pyStrip B)) with
        | none =>
            unfold create_relationship at hcr
            rw [if_neg hg, hfa, hfb] at hcr; exact absurd hcr (by simp)
        | some b =>
          have ha := List.mem_of_find?_eq_some hfa
          have hb := List.mem_of_find?_eq_some hfb
          have hma : matchesName a (pyStrip A) = true := by
            have h' := List.find?_some hfa
            simpa using h'
          have hmb : matchesName b (pyStrip B) = true := by
            have h' := List.find?_some hfb
            simpa using h'
          have hstep : create_relationship valid g A B T =
              ({ g with edges := g.edges ++ [⟨T, a.nodeId, b.nodeId, [tag]⟩] }, true) := by
            unfold create_relationship
            rw [hT, if_neg hg, hfa, hfb]
          rw [hstep]
          refine ?_
          have hga : getNode { g with edges := g.edges ++ [⟨T, a.nodeId, b.nodeId, [tag]⟩] }
              a.nodeId = some a := WF_getNode_self hWF ha
          have hgb : getNode { g with edges := g.edges ++ [⟨T, a.nodeId, b.nodeId, [tag]⟩] }
              b.nodeId = some b := WF_getNode_self hWF hb
          have hgflip : ¬(B == "" || A == "" || T == "") = true := by
            simp only [Bool.or_eq_true, beq_iff_eq] at hg ⊢
            tauto
          have hex2 : relationship_exists
              { g with edges := g.edges ++ [⟨T, a.nodeId, b.nodeId, [tag]⟩] } B A T = true := by
            unfold relationship_exists
            rw [if_neg hgflip]
            refine List.any_eq_true.mpr ⟨⟨T, a.nodeId, b.nodeId, [tag]⟩, by simp, ?_⟩
            simp [hga, hgb, hma, hmb]
          constructor
          · simp [relFlow, hex2]
          · unfold countEdges
            rw [show ({ g with edges := g.edges ++ [⟨T, a.nodeId, b.nodeId, [tag]⟩]} : Graph).edges
                  = g.edges ++ [⟨T, a.nodeId, b.nodeId, [tag]⟩] from rfl]
            rw [List.filter_append]
            have hold : (g.edges.filter (fun e =>
                e.relType == T &&
                (match getNode { g with edges := g.edges ++ [⟨T, a.nodeId, b.nodeId, [tag]⟩] } e.src,
                       getNode { g with edges := g.edges ++ [⟨T, a.nodeId, b.nodeId, [tag]⟩] } e.dst with
                 | some p, some q =>
                    (matchesName p (pyStrip A) && matchesName q (pyStrip B)) ||
                    (matchesName p (pyStrip B) && matchesName q (pyStrip A))
                 | _, _ => false))) = [] := by
              refine List.filter_eq_nil_iff.mpr ?_
              intro x hx
              unfold relationship_exists at hex
              rw [if_neg hg] at hex
              exact List.any_eq_false.mp hex x hx
            rw [hold]
            have hnew : ((⟨T, a.nodeId, b.nodeId, [tag]⟩ : Edge).relType == T &&
                (match getNode { g with edges := g.edges ++ [⟨T, a.nodeId, b.nodeId, [tag]⟩] }
                        (⟨T, a.nodeId, b.nodeId, [tag]⟩ : Edge).src,
                       getNode { g with edges := g.edges ++ [⟨T, a.nodeId, b.nodeId, [tag]⟩] }
                        (⟨T, a.nodeId, b.nodeId, [tag]⟩ : Edge).dst with
                 | some p, some q =>
                    (matchesName p (pyStrip A) && matchesName q (pyStrip B)) ||
                    (matchesName p (pyStrip B) && matchesName q (pyStrip A))
                 | _, _ => false)) = true := by
              simp [hga, hgb, hma, hmb]
            rw [List.filter_cons, if_pos hnew]
            rfl

/-- Witness for C3: a two-node store; creating `A -[DDI]-> B` then
requesting `B -[DDI]-> A` reports `created = false`, leaves the graph
unchanged, and the edge count stays 1. -/
theorem relationship_identity_unordered_witness :
    WF (⟨[⟨0, "DRUG", ["A"], [], []⟩, ⟨1, "DRUG", ["B"], [], []⟩], [], 2⟩ : Graph) ∧
    (relFlow defaultRelationTypes ⟨[⟨0, "DRUG", ["A"], [], []⟩, ⟨1, "DRUG", ["B"], [], []⟩], [], 2⟩
        "A" "B" "DDI").2 = true ∧
    relFlow defaultRelationTypes
      (relFlow defaultRelationTypes ⟨[⟨0, "DRUG", ["A"], [], []⟩, ⟨1, "DRUG", ["B"], [], []⟩], [], 2⟩
        "A" "B" "DDI").1 "B" "A" "DDI" =
      ((relFlow defaultRelationTypes ⟨[⟨0, "DRUG", ["A"], [], []⟩, ⟨1, "DRUG", ["B"], [], []⟩], [], 2⟩
        "A" "B" "DDI").1, false) ∧
    countEdges (relFlow defaultRelationTypes
        ⟨[⟨0, "DRUG", ["A"], [], []⟩, ⟨1, "DRUG", ["B"], [], []⟩], [], 2⟩ "A" "B" "DDI").1
      "A" "B" "DDI" = 1 := by
  have h := relationship_identity_unordered defaultRelationTypes
    ⟨[⟨0, "DRUG", ["A"], [], []⟩, ⟨1, "DRUG", ["B"], [], []⟩], [], 2⟩ "A" "B" "DDI"
    (by decide) (by decide)
  have hc := h.2 (by decide)
  exact ⟨by decide, by decide, hc.1, hc.2⟩

/-! ## Claim C5: partial batch resilience -/

/-- The summary carried by a phase result (both success and abort keep the
partially-updated state). -/
def stSummary : Except St St → Summary
  | .ok (_, s) => s
  | .error (_, s) => s

/-- The two document counters, which only document-level code touches. -/
def docCounts (s : Summary) : Nat × Nat :=
  (s.processed_documents, s.failed_documents)

theorem docCounts_processOneEntityF (f : EntityFaults) (g : Graph) (s : Summary)
    (d ty name : String) (eid : Option JVal) :
    docCounts (processOneEntityF f g s d ty name eid).2 = docCounts s := by
  unfold processOneEntityF
  split
  · rfl
  · cases (if f.lookupErr then none else entity_exists g name ty) <;>
      · simp only []
        split <;> rfl

theorem docCounts_processEntityRecord (g : Graph) (s : Summary) (d ty : String) (e : JVal) :
    docCounts (stSummary (processEntityRecord g s d ty e)) = docCounts s := by
  unfold processEntityRecord
  cases e with
  | jobj fs =>
      cases hv : lookupField "name" fs with
      | none => simp only [hv]; rfl
      | some v =>
          cases v with
          | jstr raw =>
              simp only [hv]
              split
              · show docCounts (processOneEntity g s d ty (pyStrip raw) (lookupField "id" fs)).2 =
                  docCounts s
                exact docCounts_processOneEntityF noFaults g s d ty (pyStrip raw)
                  (lookupField "id" fs)
              · rfl
          | jnull => simp only [hv]; rfl
          | jlist w => simp only [hv]; rfl
          | jobj w => simp only [hv]; rfl
  | jstr w => rfl
  | jnull => rfl
  | jlist w => rfl

theorem docCounts_processEntityList (d ty : String) (es : List JVal) :
    ∀ (g : Graph) (s : Summary),
      docCounts (stSummary (processEntityList g s d ty es)) = docCounts s := by
  induction es with
  | nil => intro g s; rfl
  | cons e rest ih =>
      intro g s
      unfold processEntityList
      cases hr : processEntityRecord g s d ty e with
      | ok st =>
          have h := docCounts_processEntityRecord g s d ty e
          rw [hr] at h
          rw [ih st.1 st.2]
          exact h
      | error st =>
          have h := docCounts_processEntityRecord g s d ty e
          rw [hr] at h
          exact h

theorem docCounts_entityPhaseAux (d : String) (data : List (String × JVal))
    (keys : List (String × String)) :
    ∀ (g : Graph) (s : Summary),
      docCounts (stSummary (entityPhaseAux g s d data keys)) = docCounts s := by
  induction keys with
  | nil => intro g s; rfl
  | cons kt rest ih =>
      intro g s
      obtain ⟨key, ty⟩ := kt
      unfold entityPhaseAux
      cases hv : lookupField key data with
      | none => simp only [hv]; exact ih g s
      | some v =>
          cases v with
          | jlist es =>
              simp only [hv]
              cases hl : processEntityList g s d ty es with
              | ok st =>
                  obtain ⟨g', s'⟩ := st
                  have h := docCounts_processEntityList d ty es g s
                  rw [hl] at h
                  rw [ih g' s']
                  exact h
              | error st =>
                  obtain ⟨g', s'⟩ := st
                  have h := docCounts_processEntityList d ty es g s
                  rw [hl] at h
                  exact h
          | jstr w => simp only [hv]; exact ih g s
          | jnull => simp only [hv]; exact ih g s
          | jobj w => simp only [hv]; exact ih g s

theorem docCounts_processRelRecord (valid : List String) (g : Graph) (s : Summary)
    (d key : String) (r : JVal) :
    docCounts (stSummary (processRelRecord valid g s d key r)) = docCounts s := by
  unfold processRelRecord
  cases r with
  | jobj fs =>
      cases hm : resolveKgType (defaultRelTypeFor key) fs with
      | error e => simp only [hm]; rfl
      | ok kg =>
          simp only [hm]
          cases hx : extract_entities_from_relationship fs with
          | mk o1 o2 =>
              cases o1 with
              | none => simp only [hx]; rfl
              | some n1 =>
                  cases o2 with
                  | none => simp only [hx]; rfl
                  | some n2 =>
                      simp only [hx]
                      split
                      · generalize relFlow valid g n1 n2
                          (validate_relation_type valid kg) = rc
                        obtain ⟨g', created⟩ := rc
                        cases created <;> rfl
                      · rfl
  | jstr w => rfl
  | jnull => rfl
  | jlist w => rfl

theorem docCounts_processRelList (valid : List String) (d key : String) (rs : List JVal) :
    ∀ (g : Graph) (s : Summary),
      docCounts (stSummary (processRelList valid g s d key rs)) = docCounts s := by
  induction rs with
  | nil => intro g s; rfl
  | cons r rest ih =>
      intro g s
      unfold processRelList
      cases hr : processRelRecord valid g s d key r with
      | ok st =>
          have h := docCounts_processRelRecord valid g s d key r
          rw [hr] at h
          rw [ih st.1 st.2]
          exact h
      | error st =>
          have h := docCounts_processRelRecord valid g s d key r
          rw [hr] at h
          exact h

theorem docCounts_relPhaseAux (valid : List String) (d : String)
    (items : List (String × JVal)) :
    ∀ (g : Graph) (s : Summary),
      docCounts (stSummary (relPhaseAux valid g s d items)) = docCounts s := by
  induction items with
  | nil => intro g s; rfl
  | cons kv rest ih =>
      intro g s
      unfold relPhaseAux
      cases kv with
      | mk key v =>
          cases v with
          | jlist rs =>
              simp only []
              split
              · cases hl : processRelList valid g s d key rs with
                | ok st =>
                    have h := docCounts_processRelList valid d key rs g s
                    rw [hl] at h
                    rw [ih st.1 st.2]
                    exact h
                | error st =>
                    have h := docCounts_processRelList valid d key rs g s
                    rw [hl] at h
                    exact h
              · exact ih g s
          | jstr _ => exact ih g s
          | jnull => exact ih g s
          | jobj _ => exact ih g s

theorem ppo_outcome_processed (valid : List String) (g : Graph) (s : Summary)
    (did : String) (data : List (String × JVal))
    (h : (processParsedObj valid g s did data).2.2 = .processed) :
    (processParsedObj valid g s did data).2.1.processed_documents = s.processed_documents + 1 ∧
    (processParsedObj valid g s did data).2.1.failed_documents = s.failed_documents := by
  unfold processParsedObj at h ⊢
  cases hE : entityPhase g s did data with
  | error st =>
      obtain ⟨ge, se⟩ := st
      rw [hE] at h
      exact absurd h (by simp)
  | ok st1 =>
      obtain ⟨g1, s1⟩ := st1
      rw [hE] at h
      replace h : (match relPhase valid g1 s1 did data with
          | .error (g', s') => (g', markFailed s', Outcome.failed)
          | .ok (g2, s2) => (g2, incProcessed s2, Outcome.processed)).2.2 =
          Outcome.processed := h
      refine (?_ : (match relPhase valid g1 s1 did data with
          | .error (g', s') => (g', markFailed s', Outcome.failed)
          | .ok (g2, s2) => (g2, incProcessed s2, Outcome.processed)).2.1.processed_documents =
            s.processed_documents + 1 ∧
          (match relPhase valid g1 s1 did data with
          | .error (g', s') => (g', markFailed s', Outcome.failed)
          | .ok (g2, s2) => (g2, incProcessed s2, Outcome.processed)).2.1.failed_documents =
            s.failed_documents)
      cases hR : relPhase valid g1 s1 did data with
      | error st =>
          obtain ⟨ge, se⟩ := st
          rw [hR] at h
          exact absurd h (by simp)
      | ok st2 =>
          obtain ⟨g2, s2⟩ := st2
          have hc1 := docCounts_entityPhaseAux did data entityKeyTypes g s
          rw [show entityPhaseAux g s did data entityKeyTypes =
            Except.ok (g1, s1) from hE] at hc1
          have hc2 := docCounts_relPhaseAux valid did data g1 s1
          rw [show relPhaseAux valid g1 s1 did data =
            Except.ok (g2, s2) from hR] at hc2
          have e1 : s1.processed_documents = s.processed_documents ∧
              s1.failed_documents = s.failed_documents :=
            ⟨by simpa [docCounts, stSummary] using congrArg Prod.fst hc1,
             by simpa [docCounts, stSummary] using congrArg Prod.snd hc1⟩
          have e2 : s2.processed_documents = s1.processed_documents ∧
              s2.failed_documents = s1.failed_documents :=
            ⟨by simpa [docCounts, stSummary] using congrArg Prod.fst hc2,
             by simpa [docCounts, stSummary] using congrArg Prod.snd hc2⟩
          constructor
          · show (incProcessed s2).processed_documents = s.processed_documents + 1
            simp [incProcessed, e2.1, e1.1]
          · show (incProcessed s2).failed_documents = s.failed_documents
            simp [incProcessed, e2.2, e1.2]

theorem pdd_outcome_processed (valid : List String) (g : Graph) (s : Summary)
    (doc : Document) (h : (processDocumentData valid g s doc).2.2 = .processed) :
    (processDocumentData valid g s doc).2.1.processed_documents = s.processed_documents + 1 ∧
    (processDocumentData valid g s doc).2.1.failed_documents = s.failed_documents := by
  obtain ⟨did, ana⟩ := doc
  cases ana with
  | missing => exact absurd h (by simp [processDocumentData])
  | invalid str => exact absurd h (by simp [processDocumentData])
  | parsed v =>
      cases v with
      | jobj data =>
          have hred : processDocumentData valid g s ⟨did, .parsed (.jobj data)⟩ =
              processParsedObj valid g s did data := rfl
          rw [hred] at h ⊢
          exact ppo_outcome_processed valid g s did data h
      | jstr w => exact absurd h (by simp [processDocumentData])
      | jnull => exact absurd h (by simp [processDocumentData])
      | jlist w => exact absurd h (by simp [processDocumentData])

/-- Claim C5: in a batch of three documents whose middle document's
`analysis` is the unparseable string `"not valid json"`, the parse failure
aborts only that document: the batch ends with `processed_documents = 2`,
`failed_documents = 1`, and the final graph is exactly the result of
applying document 1 and then document 3 to the store. -/
theorem partial_batch_resilience (valid : List String) (g : Graph) (d1 d3 : Document)
    (id2 : String)
    (h1 : (processDocumentData valid g initSummary d1).2.2 = .processed)
    (h3 : (processDocumentData valid
            (processDocumentData valid g initSummary d1).1
            (markFailed (processDocumentData valid g initSummary d1).2.1) d3).2.2 = .processed) :
    (runBatch valid (g, initSummary)
      [d1, ⟨id2, .invalid "not valid json"⟩, d3]).2.processed_documents = 2 ∧
    (runBatch valid (g, initSummary)
      [d1, ⟨id2, .invalid "not valid json"⟩, d3]).2.failed_documents = 1 ∧
    (runBatch valid (g, initSummary) [d1, ⟨id2, .invalid "not valid json"⟩, d3]).1 =
      (processDocumentData valid
        (processDocumentData valid g initSummary d1).1
        (markFailed (processDocumentData valid g initSummary d1).2.1) d3).1 := by
  have e1 := pdd_outcome_processed valid g initSummary d1 h1
  have e3 := pdd_outcome_processed valid
    (processDocumentData valid g initSummary d1).1
    (markFailed (processDocumentData valid g initSummary d1).2.1) d3 h3
  have hbatch : runBatch valid (g, initSummary) [d1, ⟨id2, .invalid "not valid json"⟩, d3] =
      ((processDocumentData valid (processDocumentData valid g initSummary d1).1
          (markFailed (processDocumentData valid g initSummary d1).2.1) d3).1,
       (processDocumentData valid (processDocumentData valid g initSummary d1).1
          (markFailed (processDocumentData valid g initSummary d1).2.1) d3).2.1) := rfl
  rw [hbatch]
  refine ⟨?_, ?_, rfl⟩
  · show (processDocumentData valid _ _ d3).2.1.processed_documents = 2
    rw [e3.1]
    show (processDocumentData valid g initSummary d1).2.1.processed_documents + 1 = 2
    rw [e1.1]
    rfl
  · show (processDocumentData valid _ _ d3).2.1.failed_documents = 1
    rw [e3.2]
    show (processDocumentData valid g initSummary d1).2.1.failed_documents + 1 = 1
    rw [e1.2]
    rfl

/-- Witness for C5: two well-formed single-entity documents around the
unparseable one. -/
theorem partial_batch_resilience_witness :
    (processDocumentData defaultRelationTypes ⟨[], [], 0⟩ initSummary
      ⟨"d1", .parsed (.jobj [("medications", .jlist [.jobj [("name", .jstr "Aspirin")]])])⟩).2.2 =
      .processed ∧
    (runBatch defaultRelationTypes (⟨[], [], 0⟩, initSummary)
      [⟨"d1", .parsed (.jobj [("medications", .jlist [.jobj [("name", .jstr "Aspirin")]])])⟩,
       ⟨"d2", .invalid "not valid json"⟩,
       ⟨"d3", .parsed (.jobj [("diseases", .jlist [.jobj [("name", .jstr "Headache")]])])⟩]).2.processed_documents = 2 ∧
    (runBatch defaultRelationTypes (⟨[], [], 0⟩, initSummary)
      [⟨"d1", .parsed (.jobj [("medications", .jlist [.jobj [("name", .jstr "Aspirin")]])])⟩,
       ⟨"d2", .invalid "not valid json"⟩,
       ⟨"d3", .parsed (.jobj [("diseases", .jlist [.jobj [("name", .jstr "Headache")]])])⟩]).2.failed_documents = 1 := by
  have h := partial_batch_resilience defaultRelationTypes ⟨[], [], 0⟩
    ⟨"d1", .parsed (.jobj [("medications", .jlist [.jobj [("name", .jstr "Aspirin")]])])⟩
    ⟨"d3", .parsed (.jobj [("diseases", .jlist [.jobj [("name", .jstr "Headache")]])])⟩
    "d2" (by decide) (by decide)
  exact ⟨by decide, h.1, h.2.1⟩

/-! ## Claim C1: idempotence machinery

A single engine pass only ever extends the store in three ways: it appends
to the `source`/`id` arrays of an existing node without touching its
element id, label or `NAME` array; it appends a fresh node; it appends an
edge.  `GExt` is the reflexive-transitive closure of those primitive
extensions; every per-candidate stability argument below is an induction
over it. -/

/-- The graph carried by a phase result (success or abort). -/
def stGraph : Except St St → Graph
  | .ok (g, _) => g
  | .error (g, _) => g

/-- Conservative store extension: in-place append-only node updates that
preserve element id, label and `NAME`; appending a node carrying the fresh
generator id; appending an edge. -/
inductive GExt : Graph → Graph → Prop where
  | refl (g : Graph) : GExt g g
  | trans {g h k : Graph} : GExt g h → GExt h k → GExt g k
  | updNode {g : Graph} (f : Node → Node)
      (hf : ∀ x ∈ g.nodes, (f x).nodeId = x.nodeId ∧ (f x).label = x.label ∧
        (f x).NAME = x.NAME ∧ (∀ y ∈ x.source, y ∈ (f x).source) ∧
        (∀ y ∈ x.id, y ∈ (f x).id)) :
      GExt g ⟨g.nodes.map f, g.edges, g.nextId⟩
  | addNode {g : Graph} (n : Node) (hn : n.nodeId = g.nextId) :
      GExt g ⟨g.nodes ++ [n], g.edges, g.nextId + 1⟩
  | addEdge {g : Graph} (e : Edge) : GExt g ⟨g.nodes, g.edges ++ [e], g.nextId⟩

/-- Edge-only extension (the relationship phase never touches nodes). -/
def EExt (g h : Graph) : Prop :=
  h.nodes = g.nodes ∧ h.nextId = g.nextId ∧ ∃ es, h.edges = g.edges ++ es

theorem EExt.refl (g : Graph) : EExt g g := ⟨rfl, rfl, [], by simp⟩

theorem EExt.trans {g h k : Graph} (h1 : EExt g h) (h2 : EExt h k) : EExt g k := by
  obtain ⟨hn1, hi1, es1, he1⟩ := h1
  obtain ⟨hn2, hi2, es2, he2⟩ := h2
  exact ⟨hn2.trans hn1, hi2.trans hi1, es1 ++ es2, by rw [he2, he1, List.append_assoc]⟩

theorem GExt_of_EExt {g h : Graph} (hx : EExt g h) : GExt g h := by
  obtain ⟨hn, hi, es, he⟩ := hx
  have key : ∀ (es' : List Edge) (g' : Graph), GExt g' ⟨g'.nodes, g'.edges ++ es', g'.nextId⟩ := by
    intro es'
    induction es' with
    | nil => intro g'; simpa using GExt.refl g'
    | cons e rest ih =>
        intro g'
        have h1 : GExt g' ⟨g'.nodes, g'.edges ++ [e], g'.nextId⟩ := GExt.addEdge e
        have h2 := ih ⟨g'.nodes, g'.edges ++ [e], g'.nextId⟩
        have h3 : (⟨g'.nodes, (g'.edges ++ [e]) ++ rest, g'.nextId⟩ : Graph) =
            ⟨g'.nodes, g'.edges ++ e :: rest, g'.nextId⟩ := by simp
        exact GExt.trans h1 (h3 ▸ h2)
  have := key es g
  have hgh : h = ⟨g.nodes, g.edges ++ es, g.nextId⟩ := by
    cases h with
    | mk n e i => simp only at hn hi he; rw [hn, hi, he]
  rw [hgh]
  exact this

theorem EExt_WF {g h : Graph} (hx : EExt g h) (hWF : WF g) : WF h := by
  obtain ⟨hn, hi, -⟩ := hx
  unfold WF at hWF ⊢
  rw [hn, hi]
  exact hWF

/-- `find?` respects pointwise-equal predicates. -/
theorem find?_congr {α : Type} (l : List α) (p q : α → Bool)
    (H : ∀ x ∈ l, p x = q x) : l.find? p = l.find? q := by
  induction l with
  | nil => rfl
  | cons x xs ih =>
      rw [List.find?_cons, List.find?_cons, H x (by simp)]
      cases q x
      · exact ih (fun a ha => H a (by simp [ha]))
      · rfl

/-- `find?` commutes with a map that preserves the predicate. -/
theorem find?_map_pres {α : Type} (l : List α) (f : α → α) (p : α → Bool)
    (H : ∀ x ∈ l, p (f x) = p x) : (l.map f).find? p = (l.find? p).map f := by
  induction l with
  | nil => rfl
  | cons x xs ih =>
      rw [List.map_cons, List.find?_cons, List.find?_cons, H x (by simp)]
      cases p x
      · exact ih (fun a ha => H a (by simp [ha]))
      · rfl

theorem matchesName_congr {a b : Node} (h : b.NAME = a.NAME) (s : String) :
    matchesName b s = matchesName a s := by
  unfold matchesName
  rw [h]

/-- Edges only accumulate. -/
theorem GExt_edges_mono {g h : Graph} (hx : GExt g h) : ∀ e ∈ g.edges, e ∈ h.edges := by
  induction hx with
  | refl g => exact fun e he => he
  | trans h1 h2 ih1 ih2 => exact fun e he => ih2 e (ih1 e he)
  | updNode f hf => exact fun e he => he
  | addNode n hn => exact fun e he => he
  | addEdge e' => exact fun e he => by simp [he]

/-- A node found by element id persists with its `NAME` array intact. -/
theorem getNode_stable {g h : Graph} (hx : GExt g h) :
    ∀ (i : Nat) (a : Node), getNode g i = some a →
      ∃ a', getNode h i = some a' ∧ a'.nodeId = a.nodeId ∧ a'.NAME = a.NAME := by
  induction hx with
  | refl g => exact fun i a ha => ⟨a, ha, rfl, rfl⟩
  | trans h1 h2 ih1 ih2 =>
      intro i a ha
      obtain ⟨a', ha', hid', hN'⟩ := ih1 i a ha
      obtain ⟨a'', ha'', hid'', hN''⟩ := ih2 i a' ha'
      exact ⟨a'', ha'', hid''.trans hid', hN''.trans hN'⟩
  | @updNode g f hf =>
      intro i a ha
      have hpres : ∀ x ∈ g.nodes, ((f x).nodeId == i) = (x.nodeId == i) := by
        intro x hxm
        rw [(hf x hxm).1]
      have hmap : getNode ⟨g.nodes.map f, g.edges, g.nextId⟩ i =
          (g.nodes.find? (fun n => n.nodeId == i)).map f := by
        unfold getNode
        exact find?_map_pres g.nodes f (fun n => n.nodeId == i) hpres
      have ha' : g.nodes.find? (fun n => n.nodeId == i) = some a := ha
      rw [hmap, ha']
      have ham := List.mem_of_find?_eq_some ha'
      exact ⟨f a, rfl, (hf a ham).1, (hf a ham).2.2.1⟩
  | @addNode g n hn =>
      intro i a ha
      refine ⟨a, ?_, rfl, rfl⟩
      unfold getNode at ha ⊢
      rw [show (⟨g.nodes ++ [n], g.edges, g.nextId + 1⟩ : Graph).nodes =
        g.nodes ++ [n] from rfl, List.find?_append, ha]
      rfl
  | addEdge e => exact fun i a ha => ⟨a, ha, rfl, rfl⟩

/-- A node's membership, element id and array memberships persist. -/
theorem node_facts_stable {g h : Graph} (hx : GExt g h) :
    ∀ n ∈ g.nodes, ∃ n' ∈ h.nodes, n'.nodeId = n.nodeId ∧
      (∀ y ∈ n.source, y ∈ n'.source) ∧ (∀ y ∈ n.id, y ∈ n'.id) := by
  induction hx with
  | refl g => exact fun n hn => ⟨n, hn, rfl, fun y hy => hy, fun y hy => hy⟩
  | trans h1 h2 ih1 ih2 =>
      intro n hn
      obtain ⟨n', hn', hid', hs', hi'⟩ := ih1 n hn
      obtain ⟨n'', hn'', hid'', hs'', hi''⟩ := ih2 n' hn'
      exact ⟨n'', hn'', hid''.trans hid', fun y hy => hs'' y (hs' y hy),
        fun y hy => hi'' y (hi' y hy)⟩
  | @updNode g f hf =>
      intro n hn
      exact ⟨f n, List.mem_map.mpr ⟨n, hn, rfl⟩, (hf n hn).1, (hf n hn).2.2.2.1,
        (hf n hn).2.2.2.2⟩
  | @addNode g m hm =>
      intro n hn
      exact ⟨n, by simp [hn], rfl, fun y hy => hy, fun y hy => hy⟩
  | addEdge e =>
      intro n hn
      exact ⟨n, hn, rfl, fun y hy => hy, fun y hy => hy⟩

/-- A successful label-scoped lookup keeps returning the same element id. -/
theorem entity_exists_stable {g h : Graph} (hx : GExt g h) :
    ∀ (name ty : String) (nid : Nat), entity_exists g name ty = some nid →
      entity_exists h name ty = some nid := by
  induction hx with
  | refl g => exact fun name ty nid hh => hh
  | trans h1 h2 ih1 ih2 => exact fun name ty nid hh => ih2 name ty nid (ih1 name ty nid hh)
  | @updNode g f hf =>
      intro name ty nid hh
      unfold entity_exists at hh ⊢
      by_cases hs : pyStrip name = ""
      · rw [if_pos hs] at hh; exact absurd hh (by simp)
      · rw [if_neg hs] at hh ⊢
        have hpres : ∀ x ∈ g.nodes,
            ((f x).label == labelFor ty && matchesName (f x) (pyStrip name)) =
            (x.label == labelFor ty && matchesName x (pyStrip name)) := by
          intro x hxm
          rw [(hf x hxm).2.1, matchesName_congr (hf x hxm).2.2.1]
        rw [show (⟨g.nodes.map f, g.edges, g.nextId⟩ : Graph).nodes = g.nodes.map f from rfl,
          find?_map_pres g.nodes f _ hpres]
        cases hfind : g.nodes.find? (fun n =>
            n.label == labelFor ty && matchesName n (pyStrip name)) with
        | none => rw [hfind] at hh; exact absurd hh (by simp)
        | some a =>
            rw [hfind] at hh
            have ham := List.mem_of_find?_eq_some hfind
            have hh' : a.nodeId = nid := by simpa using hh
            simp [(hf a ham).1, hh']
  | @addNode g n hn =>
      intro name ty nid hh
      unfold entity_exists at hh ⊢
      by_cases hs : pyStrip name = ""
      · rw [if_pos hs] at hh; exact absurd hh (by simp)
      · rw [if_neg hs] at hh ⊢
        rw [show (⟨g.nodes ++ [n], g.edges, g.nextId + 1⟩ : Graph).nodes =
          g.nodes ++ [n] from rfl, List.find?_append]
        cases hfind : g.nodes.find? (fun m =>
            m.label == labelFor ty && matchesName m (pyStrip name)) with
        | none => rw [hfind] at hh; exact absurd hh (by simp)
        | some a =>
            rw [hfind] at hh
            simpa using hh
  | addEdge e => exact fun name ty nid hh => hh

/-- Well-formedness survives conservative extension. -/
theorem WF_stable {g h : Graph} (hx : GExt g h) (hWF : WF g) : WF h := by
  induction hx with
  | refl g => exact hWF
  | trans h1 h2 ih1 ih2 => exact ih2 (ih1 hWF)
  | @updNode g f hf =>
      obtain ⟨hnd, hb⟩ := hWF
      constructor
      · rw [show (⟨g.nodes.map f, g.edges, g.nextId⟩ : Graph).nodes = g.nodes.map f from rfl]
        have hmm : (g.nodes.map f).map (fun n => n.nodeId) =
            g.nodes.map (fun n => n.nodeId) := by
          rw [List.map_map]
          exact List.map_congr_left (fun x hxm => (hf x hxm).1)
        rw [hmm]
        exact hnd
      · intro n hn
        obtain ⟨m, hm, rfl⟩ := List.mem_map.mp hn
        rw [show (⟨g.nodes.map f, g.edges, g.nextId⟩ : Graph).nextId = g.nextId from rfl]
        rw [(hf m hm).1]
        exact hb m hm
  | @addNode g n hn =>
      obtain ⟨hnd, hb⟩ := hWF
      constructor
      · rw [show (⟨g.nodes ++ [n], g.edges, g.nextId + 1⟩ : Graph).nodes =
          g.nodes ++ [n] from rfl, List.map_append]
        rw [List.nodup_append]
        refine ⟨hnd, by simp, ?_⟩
        intro x hx hx2
        obtain ⟨m, hm, rfl⟩ := List.mem_map.mp hx
        simp only [List.map_cons, List.map_nil, List.mem_singleton] at hx2
        have hlt := hb m hm
        rw [hx2, hn] at hlt
        exact absurd hlt (lt_irrefl _)
      · intro m hm
        rw [show (⟨g.nodes ++ [n], g.edges, g.nextId + 1⟩ : Graph).nextId =
          g.nextId + 1 from rfl]
        rcases List.mem_append.mp hm with hm | hm
        · exact Nat.lt_succ_of_lt (hb m hm)
        · simp only [List.mem_singleton] at hm
          rw [hm, hn]
          exact Nat.lt_succ_self _
  | addEdge e => exact hWF

/-- A true bidirectional existence check stays true. -/
theorem relationship_exists_stable {g h : Graph} (hx : GExt g h) (n1 n2 T : String)
    (hex : relationship_exists g n1 n2 T = true) :
    relationship_exists h n1 n2 T = true := by
  unfold relationship_exists at hex ⊢
  by_cases hguard : (n1 == "" || n2 == "" || T == "") = true
  · rw [if_pos hguard] at hex; exact absurd hex (by simp)
  · rw [if_neg hguard] at hex ⊢
    obtain ⟨e, hem, hpe⟩ := List.any_eq_true.mp hex
    refine List.any_eq_true.mpr ⟨e, GExt_edges_mono hx e hem, ?_⟩
    cases hsa : getNode g e.src with
    | none => rw [hsa] at hpe; exact absurd hpe (by simp)
    | some a =>
        cases hsb : getNode g e.dst with
        | none => rw [hsa, hsb] at hpe; exact absurd hpe (by simp)
        | some b =>
            rw [hsa, hsb] at hpe
            replace hpe : (e.relType == T &&
                ((matchesName a (pyStrip n1) && matchesName b (pyStrip n2)) ||
                 (matchesName a (pyStrip n2) && matchesName b (pyStrip n1)))) = true := hpe
            obtain ⟨a', ha', -, hNa⟩ := getNode_stable hx e.src a hsa
            obtain ⟨b', hb', -, hNb⟩ := getNode_stable hx e.dst b hsb
            simp only [ha', hb']
            rw [matchesName_congr hNa (pyStrip n1), matchesName_congr hNa (pyStrip n2),
              matchesName_congr hNb (pyStrip n1), matchesName_congr hNb (pyStrip n2)]
            exact hpe

/-- After one pass has handled an entity candidate, any later state settles
it: either its id guard raises (so create/update mutate nothing), or the
name strips to empty (so create mutates nothing), or the label-scoped
lookup finds a node that already carries the provenance tag and — when the
id guard passes — the id, so a repeated update appends nothing. -/
def EntitySettled (g : Graph) (ty name : String) (eid : Option JVal) : Prop :=
  idStatus eid = .raiseErr ∨ pyStrip name = "" ∨
  ∃ nid n, entity_exists g name ty = some nid ∧ n ∈ g.nodes ∧ n.nodeId = nid ∧
    tag ∈ n.source ∧ (∀ e, idStatus eid = .withId e → e ∈ n.id)

theorem EntitySettled_stable {g h : Graph} (hx : GExt g h) (ty name : String)
    (eid : Option JVal) (hst : EntitySettled g ty name eid) :
    EntitySettled h ty name eid := by
  rcases hst with hra | hstrip | ⟨nid, n, hfound, hmem, hid, htag, hids⟩
  · exact Or.inl hra
  · exact Or.inr (Or.inl hstrip)
  · refine Or.inr (Or.inr ?_)
    obtain ⟨n', hn', hid', hs', hi'⟩ := node_facts_stable hx n hmem
    exact ⟨nid, n', entity_exists_stable hx name ty nid hfound, hn', hid'.trans hid,
      hs' tag htag, fun e he => hi' e (hids e he)⟩

/-- Decompose a successful lookup into its witnessing node. -/
theorem entity_exists_some_facts {g : Graph} {name ty : String} {nid : Nat}
    (h : entity_exists g name ty = some nid) :
    pyStrip name ≠ "" ∧ ∃ n ∈ g.nodes, n.nodeId = nid ∧
      (n.label == labelFor ty) = true ∧ matchesName n (pyStrip name) = true := by
  unfold entity_exists at h
  by_cases hs : pyStrip name = ""
  · rw [if_pos hs] at h; exact absurd h (by simp)
  · rw [if_neg hs] at h
    cases hfind : g.nodes.find? (fun n =>
        n.label == labelFor ty && matchesName n (pyStrip name)) with
    | none => rw [hfind] at h; exact absurd h (by simp)
    | some n =>
        rw [hfind] at h
        have hmem := List.mem_of_find?_eq_some hfind
        have hp := List.find?_some hfind
        simp only [Bool.and_eq_true] at hp
        exact ⟨hs, n, hmem, by simpa using h, hp.1, hp.2⟩

theorem entity_exists_none_find {g : Graph} {name ty : String}
    (hs : pyStrip name ≠ "") (h : entity_exists g name ty = none) :
    g.nodes.find? (fun n => n.label == labelFor ty && matchesName n (pyStrip name)) = none := by
  unfold entity_exists at h
  rw [if_neg hs] at h
  exact Option.map_eq_none.mp h

/-- The in-place node transformer applied by `update_existing_entity` when
the id guard yields `new_id`. -/
def updBodyWithId (name new_id : String) (n : Node) : Node :=
  { n with
    source := if n.source.contains tag then n.source else n.source ++ [tag],
    NAME := if n.NAME.any (fun item => pyLower item == pyLower (pyStrip name))
            then n.NAME else n.NAME ++ [pyStrip name],
    id := if n.id.contains new_id then n.id else n.id ++ [new_id] }

/-- The in-place node transformer applied by `update_existing_entity` when
the id guard yields no id. -/
def updBodyNoId (name : String) (n : Node) : Node :=
  { n with
    source := if n.source.contains tag then n.source else n.source ++ [tag],
    NAME := if n.NAME.any (fun item => pyLower item == pyLower (pyStrip name))
            then n.NAME else n.NAME ++ [pyStrip name] }

theorem update_eq_mapNode (g : Graph) (name ty : String) (eid : Option JVal) (nid : Nat)
    (hname : name ≠ "") :
    update_existing_entity g name ty eid nid =
      (match idStatus eid with
       | .raiseErr => g
       | .withId i => mapNode g nid (updBodyWithId name i)
       | .withoutId => mapNode g nid (updBodyNoId name)) := by
  unfold update_existing_entity
  rw [if_neg hname]
  cases idStatus eid <;> rfl

theorem updBodyWithId_props (name i : String) (n : Node) :
    (updBodyWithId name i n).nodeId = n.nodeId ∧
    (updBodyWithId name i n).label = n.label ∧
    (matchesName n (pyStrip name) = true → (updBodyWithId name i n).NAME = n.NAME) ∧
    (∀ y ∈ n.source, y ∈ (updBodyWithId name i n).source) ∧
    (∀ y ∈ n.id, y ∈ (updBodyWithId name i n).id) ∧
    tag ∈ (updBodyWithId name i n).source ∧ i ∈ (updBodyWithId name i n).id := by
  refine ⟨rfl, rfl, ?_, ?_, ?_, ?_, ?_⟩
  · intro hm
    have hm' : (n.NAME.any fun item => pyLower item == pyLower (pyStrip name)) = true := hm
    show (if n.NAME.any (fun item => pyLower item == pyLower (pyStrip name))
          then n.NAME else n.NAME ++ [pyStrip name]) = n.NAME
    rw [if_pos hm']
  · intro y hy
    show y ∈ (if n.source.contains tag then n.source else n.source ++ [tag])
    split
    · exact hy
    · simp [hy]
  · intro y hy
    show y ∈ (if n.id.contains i then n.id else n.id ++ [i])
    split
    · exact hy
    · simp [hy]
  · show tag ∈ (if n.source.contains tag then n.source else n.source ++ [tag])
    split
    · next hcon => simpa using hcon
    · simp
  · show i ∈ (if n.id.contains i then n.id else n.id ++ [i])
    split
    · next hcon => simpa using hcon
    · simp

theorem updBodyNoId_props (name : String) (n : Node) :
    (updBodyNoId name n).nodeId = n.nodeId ∧
    (updBodyNoId name n).label = n.label ∧
    (matchesName n (pyStrip name) = true → (updBodyNoId name n).NAME = n.NAME) ∧
    (∀ y ∈ n.source, y ∈ (updBodyNoId name n).source) ∧
    (∀ y ∈ n.id, y ∈ (updBodyNoId name n).id) ∧
    tag ∈ (updBodyNoId name n).source := by
  refine ⟨rfl, rfl, ?_, ?_, fun y hy => hy, ?_⟩
  · intro hm
    have hm' : (n.NAME.any fun item => pyLower item == pyLower (pyStrip name)) = true := hm
    show (if n.NAME.any (fun item => pyLower item == pyLower (pyStrip name))
          then n.NAME else n.NAME ++ [pyStrip name]) = n.NAME
    rw [if_pos hm']
  · intro y hy
    show y ∈ (if n.source.contains tag then n.source else n.source ++ [tag])
    split
    · exact hy
    · simp [hy]
  · show tag ∈ (if n.source.contains tag then n.source else n.source ++ [tag])
    split
    · next hcon => simpa using hcon
    · simp

/-- Conservative extension by an in-place update addressed at a node found
by the lookup (whose `NAME` therefore already matches). -/
theorem mapNode_ext (g : Graph) (nid : Nat) (fb : Node → Node) (name : String)
    (hWF : WF g) {n₀ : Node} (hn₀ : n₀ ∈ g.nodes) (hid₀ : n₀.nodeId = nid)
    (hm₀ : matchesName n₀ (pyStrip name) = true)
    (h1 : ∀ x, (fb x).nodeId = x.nodeId) (h2 : ∀ x, (fb x).label = x.label)
    (h3 : ∀ x, matchesName x (pyStrip name) = true → (fb x).NAME = x.NAME)
    (h4 : ∀ x, ∀ y ∈ x.source, y ∈ (fb x).source)
    (h5 : ∀ x, ∀ y ∈ x.id, y ∈ (fb x).id) :
    GExt g (mapNode g nid fb) := by
  have := GExt.updNode (g := g) (fun x => if x.nodeId == nid then fb x else x) ?_
  · exact this
  · intro x hx
    dsimp only
    split
    · next hxid =>
        have hxid' : x.nodeId = nid := by simpa using hxid
        have hxn : x = n₀ := WF_unique hWF hx hn₀ (by rw [hxid', hid₀])
        exact ⟨h1 x, h2 x, by rw [hxn]; exact h3 n₀ hm₀, h4 x, h5 x⟩
    · exact ⟨rfl, rfl, rfl, fun y hy => hy, fun y hy => hy⟩

/-- `update_existing_entity` is a conservative extension when addressed at
a node found by the lookup. -/
theorem update_ext (g : Graph) (name ty : String) (eid : Option JVal) (nid : Nat)
    (hWF : WF g) (hfound : entity_exists g name ty = some nid) :
    GExt g (update_existing_entity g name ty eid nid) := by
  obtain ⟨hs, n₀, hn₀, hid₀, -, hm₀⟩ := entity_exists_some_facts hfound
  have hname : name ≠ "" := by
    intro hcon
    rw [hcon] at hs
    exact hs (by decide)
  rw [update_eq_mapNode g name ty eid nid hname]
  cases idStatus eid with
  | raiseErr => exact GExt.refl g
  | withId i =>
      exact mapNode_ext g nid (updBodyWithId name i) name hWF hn₀ hid₀ hm₀
        (fun x => (updBodyWithId_props name i x).1)
        (fun x => (updBodyWithId_props name i x).2.1)
        (fun x => (updBodyWithId_props name i x).2.2.1)
        (fun x => (updBodyWithId_props name i x).2.2.2.1)
        (fun x => (updBodyWithId_props name i x).2.2.2.2.1)
  | withoutId =>
      exact mapNode_ext g nid (updBodyNoId name) name hWF hn₀ hid₀ hm₀
        (fun x => (updBodyNoId_props name x).1)
        (fun x => (updBodyNoId_props name x).2.1)
        (fun x => (updBodyNoId_props name x).2.2.1)
        (fun x => (updBodyNoId_props name x).2.2.2.1)
        (fun x => (updBodyNoId_props name x).2.2.2.2.1)

/-- `create_new_entity` is a conservative extension. -/
theorem create_ext (g : Graph) (name ty : String) (eid : Option JVal) :
    GExt g (create_new_entity g name ty eid) := by
  unfold create_new_entity
  split
  · exact GExt.refl g
  · cases idStatus eid with
    | raiseErr => exact GExt.refl g
    | withId i => exact GExt.addNode _ rfl
    | withoutId => exact GExt.addNode _ rfl

/-- One entity candidate only conservatively extends the store. -/
theorem processOneEntity_ext (g : Graph) (s : Summary) (d ty name : String)
    (eid : Option JVal) (hWF : WF g) :
    GExt g (processOneEntity g s d ty name eid).1 := by
  show GExt g (match entity_exists g name ty with
    | some nid => (update_existing_entity g name ty eid nid, incUpdated s)
    | none => (create_new_entity g name ty eid,
        incNewEntity s name ty eid d)).1
  cases hfound : entity_exists g name ty with
  | some nid => exact update_ext g name ty eid nid hWF hfound
  | none => exact create_ext g name ty eid

/-- Reduce the per-candidate body to the graph it produces. -/
theorem processOneEntity_graph (g : Graph) (s : Summary) (d ty name : String)
    (eid : Option JVal) :
    (processOneEntity g s d ty name eid).1 =
      (match entity_exists g name ty with
       | some nid => update_existing_entity g name ty eid nid
       | none => create_new_entity g name ty eid) := by
  show (match entity_exists g name ty with
    | some nid => (update_existing_entity g name ty eid nid, incUpdated s)
    | none => (create_new_entity g name ty eid,
        incNewEntity s name ty eid d)).1 = _
  cases entity_exists g name ty <;> rfl

/-- Processing an entity candidate settles it for every later pass. -/
theorem processOneEntity_settled (g : Graph) (s : Summary) (d ty name : String)
    (eid : Option JVal) (hWF : WF g) :
    EntitySettled (processOneEntity g s d ty name eid).1 ty name eid := by
  by_cases hra : idStatus eid = .raiseErr
  · exact Or.inl hra
  by_cases hstrip : pyStrip name = ""
  · exact Or.inr (Or.inl hstrip)
  refine Or.inr (Or.inr ?_)
  have hname : name ≠ "" := fun hcon => hstrip (by rw [hcon]; decide)
  cases hfound : entity_exists g name ty with
  | some nid =>
      have hred : (processOneEntity g s d ty name eid).1 =
          update_existing_entity g name ty eid nid := by
        rw [processOneEntity_graph, hfound]
      rw [hred]
      obtain ⟨hs, n₀, hn₀, hid₀, hl₀, hm₀⟩ := entity_exists_some_facts hfound
      rw [update_eq_mapNode g name ty eid nid hname]
      cases hid : idStatus eid with
      | raiseErr => exact absurd hid hra
      | withId i =>
          have hext : GExt g (mapNode g nid (updBodyWithId name i)) :=
            mapNode_ext g nid (updBodyWithId name i) name hWF hn₀ hid₀ hm₀
              (fun x => (updBodyWithId_props name i x).1)
              (fun x => (updBodyWithId_props name i x).2.1)
              (fun x => (updBodyWithId_props name i x).2.2.1)
              (fun x => (updBodyWithId_props name i x).2.2.2.1)
              (fun x => (updBodyWithId_props name i x).2.2.2.2.1)
          refine ⟨nid, updBodyWithId name i n₀,
            entity_exists_stable hext name ty nid hfound, ?_, ?_, ?_, ?_⟩
          · show updBodyWithId name i n₀ ∈
              (g.nodes.map (fun x => if x.nodeId == nid then updBodyWithId name i x else x))
            refine List.mem_map.mpr ⟨n₀, hn₀, ?_⟩
            rw [if_pos (show (n₀.nodeId == nid) = true by simp [hid₀])]
          · exact (updBodyWithId_props name i n₀).1.trans hid₀
          · exact (updBodyWithId_props name i n₀).2.2.2.2.2.1
          · intro e he
            cases he
            exact (updBodyWithId_props name i n₀).2.2.2.2.2.2
      | withoutId =>
          have hext : GExt g (mapNode g nid (updBodyNoId name)) :=
            mapNode_ext g nid (updBodyNoId name) name hWF hn₀ hid₀ hm₀
              (fun x => (updBodyNoId_props name x).1)
              (fun x => (updBodyNoId_props name x).2.1)
              (fun x => (updBodyNoId_props name x).2.2.1)
              (fun x => (updBodyNoId_props name x).2.2.2.1)
              (fun x => (updBodyNoId_props name x).2.2.2.2.1)
          refine ⟨nid, updBodyNoId name n₀,
            entity_exists_stable hext name ty nid hfound, ?_, ?_, ?_, ?_⟩
          · show updBodyNoId name n₀ ∈
              (g.nodes.map (fun x => if x.nodeId == nid then updBodyNoId name x else x))
            refine List.mem_map.mpr ⟨n₀, hn₀, ?_⟩
            rw [if_pos (show (n₀.nodeId == nid) = true by simp [hid₀])]
          · exact (updBodyNoId_props name n₀).1.trans hid₀
          · exact (updBodyNoId_props name n₀).2.2.2.2.2
          · intro e he
            exact absurd he (by simp)
  | none =>
      have hred : (processOneEntity g s d ty name eid).1 =
          create_new_entity g name ty eid := by
        rw [processOneEntity_graph, hfound]
      rw [hred]
      cases hid : idStatus eid with
      | raiseErr => exact absurd hid hra
      | withId i =>
          have hc : create_new_entity g name ty eid =
              ⟨g.nodes ++ [⟨g.nextId, labelFor ty, [pyStrip name], [i], [tag]⟩],
                g.edges, g.nextId + 1⟩ := by
            unfold create_new_entity
            rw [if_neg hstrip, hid]
          rw [hc]
          refine ⟨g.nextId, ⟨g.nextId, labelFor ty, [pyStrip name], [i], [tag]⟩,
            ?_, by simp, rfl, by simp, ?_⟩
          · unfold entity_exists
            rw [if_neg hstrip]
            rw [show (⟨g.nodes ++ [⟨g.nextId, labelFor ty, [pyStrip name], [i], [tag]⟩],
              g.edges, g.nextId + 1⟩ : Graph).nodes =
              g.nodes ++ [⟨g.nextId, labelFor ty, [pyStrip name], [i], [tag]⟩] from rfl]
            rw [List.find?_append, entity_exists_none_find hstrip hfound]
            have hpN : ((⟨g.nextId, labelFor ty, [pyStrip name], [i], [tag]⟩ : Node).label
                == labelFor ty &&
                matchesName ⟨g.nextId, labelFor ty, [pyStrip name], [i], [tag]⟩
                  (pyStrip name)) = true := by
              simp [matchesName]
            simp [List.find?_cons, hpN, matchesName]
          · intro e he
            cases he
            simp
      | withoutId =>
          have hc : create_new_entity g name ty eid =
              ⟨g.nodes ++ [⟨g.nextId, labelFor ty, [pyStrip name], [], [tag]⟩],
                g.edges, g.nextId + 1⟩ := by
            unfold create_new_entity
            rw [if_neg hstrip, hid]
          rw [hc]
          refine ⟨g.nextId, ⟨g.nextId, labelFor ty, [pyStrip name], [], [tag]⟩,
            ?_, by simp, rfl, by simp, ?_⟩
          · unfold entity_exists
            rw [if_neg hstrip]
            rw [show (⟨g.nodes ++ [⟨g.nextId, labelFor ty, [pyStrip name], [], [tag]⟩],
              g.edges, g.nextId + 1⟩ : Graph).nodes =
              g.nodes ++ [⟨g.nextId, labelFor ty, [pyStrip name], [], [tag]⟩] from rfl]
            rw [List.find?_append, entity_exists_none_find hstrip hfound]
            have hpN : ((⟨g.nextId, labelFor ty, [pyStrip name], [], [tag]⟩ : Node).label
                == labelFor ty &&
                matchesName ⟨g.nextId, labelFor ty, [pyStrip name], [], [tag]⟩
                  (pyStrip name)) = true := by
              simp [matchesName]
            simp [List.find?_cons, hpN, matchesName]
          · intro e he
            exact absurd he (by simp)

/-- A settled candidate is reprocessed without any store mutation. -/
theorem processOneEntity_noop (g : Graph) (s : Summary) (d ty name : String)
    (eid : Option JVal) (hWF : WF g) (hst : EntitySettled g ty name eid) :
    (processOneEntity g s d ty name eid).1 = g := by
  rcases hst with hra | hstrip | ⟨nid, n, hfound, hmem, hidn, htag, hids⟩
  · cases hfound : entity_exists g name ty with
    | some nid =>
        have hred : (processOneEntity g s d ty name eid).1 =
            update_existing_entity g name ty eid nid := by
          rw [processOneEntity_graph, hfound]
        rw [hred]
        unfold update_existing_entity
        split
        · rfl
        · rw [hra]
    | none =>
        have hred : (processOneEntity g s d ty name eid).1 =
            create_new_entity g name ty eid := by
          rw [processOneEntity_graph, hfound]
        rw [hred]
        unfold create_new_entity
        split
        · rfl
        · rw [hra]
  · have hnone : entity_exists g name ty = none := by
      unfold entity_exists; rw [if_pos hstrip]
    have hred : (processOneEntity g s d ty name eid).1 =
        create_new_entity g name ty eid := by
      rw [processOneEntity_graph, hnone]
    rw [hred]
    unfold create_new_entity
    rw [if_pos hstrip]
  · have hred : (processOneEntity g s d ty name eid).1 =
        update_existing_entity g name ty eid nid := by
      rw [processOneEntity_graph, hfound]
    rw [hred]
    have hname : name ≠ "" := by
      intro hcon
      exact (entity_exists_some_facts hfound).1 (by rw [hcon]; decide)
    rw [update_eq_mapNode g name ty eid nid hname]
    obtain ⟨-, n₀, hn₀, hid₀, -, hm₀⟩ := entity_exists_some_facts hfound
    have hnn : n = n₀ := WF_unique hWF hmem hn₀ (by rw [hidn, hid₀])
    have htag₀ : n₀.source.contains tag = true := by
      have : tag ∈ n₀.source := hnn ▸ htag
      simp [this]
    have hany₀ : (n₀.NAME.any fun item => pyLower item == pyLower (pyStrip name)) = true := hm₀
    cases hid : idStatus eid with
    | raiseErr => rfl
    | withId i =>
        have hin : n₀.id.contains i = true := by
          have : i ∈ n.id := hids i hid
          have : i ∈ n₀.id := hnn ▸ this
          simp [this]
        have hmap : (g.nodes.map
            (fun x => if x.nodeId == nid then updBodyWithId name i x else x)) = g.nodes := by
          apply map_eq_self
          intro x hx
          by_cases hxid : (x.nodeId == nid) = true
          · have hxn : x = n₀ := WF_unique hWF hx hn₀
              (by rw [show x.nodeId = nid by simpa using hxid, hid₀])
            rw [if_pos hxid, hxn]
            unfold updBodyWithId
            rw [if_pos htag₀, if_pos hany₀, if_pos hin]
          · rw [if_neg hxid]
        show mapNode g nid (updBodyWithId name i) = g
        unfold mapNode
        rw [hmap]
    | withoutId =>
        have hmap : (g.nodes.map
            (fun x => if x.nodeId == nid then updBodyNoId name x else x)) = g.nodes := by
          apply map_eq_self
          intro x hx
          by_cases hxid : (x.nodeId == nid) = true
          · have hxn : x = n₀ := WF_unique hWF hx hn₀
              (by rw [show x.nodeId = nid by simpa using hxid, hid₀])
            rw [if_pos hxid, hxn]
            unfold updBodyNoId
            rw [if_pos htag₀, if_pos hany₀]
          · rw [if_neg hxid]
        show mapNode g nid (updBodyNoId name) = g
        unfold mapNode
        rw [hmap]

/-! ## Two-run analysis: a processed payload replays without mutation -/

/-- An entity record that raises `AttributeError` at `name.strip()`
(non-string `name` field), independently of the store. -/
def RecordErrs (e : JVal) : Prop :=
  match e with
  | .jobj fs =>
      match lookupField "name" fs with
      | some (.jstr _) => False
      | none => False
      | some _ => True
  | _ => False

/-- After a pass has handled an entity record, the store settles it (or the
record is one the pass skipped without touching the store). -/
def RecordSettled (g : Graph) (ty : String) (e : JVal) : Prop :=
  match e with
  | .jobj fs =>
      match lookupField "name" fs with
      | some (.jstr raw) =>
          pyStrip raw ≠ "" ∧ pyStrip raw ≠ "Unknown" →
            EntitySettled g ty (pyStrip raw) (lookupField "id" fs)
      | none => True
      | some _ => False
  | _ => True

theorem RecordSettled_stable {g h : Graph} (hx : GExt g h) (ty : String) (e : JVal)
    (hst : RecordSettled g ty e) : RecordSettled h ty e := by
  cases e with
  | jobj fs =>
      cases hnm : lookupField "name" fs with
      | none => simp only [RecordSettled, hnm]
      | some v =>
          cases v with
          | jstr raw =>
              simp only [RecordSettled, hnm] at hst ⊢
              intro hg
              exact EntitySettled_stable hx ty (pyStrip raw) (lookupField "id" fs) (hst hg)
          | jnull => simp only [RecordSettled, hnm] at hst
          | jobj w => simp only [RecordSettled, hnm] at hst
          | jlist w => simp only [RecordSettled, hnm] at hst
  | jstr w => exact trivial
  | jnull => exact trivial
  | jlist w => exact trivial

theorem entRecord_facts {g : Graph} {s : Summary} {d ty : String} {e : JVal}
    {g1 : Graph} {s1 : Summary} (hWF : WF g)
    (h : processEntityRecord g s d ty e = .ok (g1, s1)) :
    GExt g g1 ∧ RecordSettled g1 ty e := by
  cases e with
  | jobj fs =>
      unfold processEntityRecord at h
      cases hnm : lookupField "name" fs with
      | none =>
          simp only [hnm] at h
          have hp : ((g, s) : St) = (g1, s1) := Except.ok.inj h
          have hg1 : g = g1 := congrArg Prod.fst hp
          subst hg1
          exact ⟨GExt.refl g, by simp only [RecordSettled, hnm]⟩
      | some v =>
          cases v with
          | jstr raw =>
              simp only [hnm] at h
              by_cases hg : pyStrip raw ≠ "" ∧ pyStrip raw ≠ "Unknown"
              · rw [if_pos hg] at h
                have hp : processOneEntity g s d ty (pyStrip raw) (lookupField "id" fs)
                    = ((g1, s1) : St) := Except.ok.inj h
                have hg1 : (processOneEntity g s d ty (pyStrip raw)
                    (lookupField "id" fs)).1 = g1 := congrArg Prod.fst hp
                constructor
                · rw [← hg1]
                  exact processOneEntity_ext g s d ty (pyStrip raw) (lookupField "id" fs) hWF
                · simp only [RecordSettled, hnm]
                  intro hg2
                  rw [← hg1]
                  exact processOneEntity_settled g s d ty (pyStrip raw)
                    (lookupField "id" fs) hWF
              · rw [if_neg hg] at h
                have hp : ((g, s) : St) = (g1, s1) := Except.ok.inj h
                have hg1 : g = g1 := congrArg Prod.fst hp
                subst hg1
                refine ⟨GExt.refl g, ?_⟩
                simp only [RecordSettled, hnm]
                intro hg2
                exact absurd hg2 hg
          | jnull => simp only [hnm] at h; exact absurd h (by simp)
          | jobj w => simp only [hnm] at h; exact absurd h (by simp)
          | jlist w => simp only [hnm] at h; exact absurd h (by simp)
  | jstr w =>
      replace h : (Except.ok (g, s) : Except St St) = .ok (g1, s1) := h
      have hp : ((g, s) : St) = (g1, s1) := Except.ok.inj h
      have hg1 : g = g1 := congrArg Prod.fst hp
      subst hg1
      exact ⟨GExt.refl g, trivial⟩
  | jnull =>
      replace h : (Except.ok (g, s) : Except St St) = .ok (g1, s1) := h
      have hp : ((g, s) : St) = (g1, s1) := Except.ok.inj h
      have hg1 : g = g1 := congrArg Prod.fst hp
      subst hg1
      exact ⟨GExt.refl g, trivial⟩
  | jlist w =>
      replace h : (Except.ok (g, s) : Except St St) = .ok (g1, s1) := h
      have hp : ((g, s) : St) = (g1, s1) := Except.ok.inj h
      have hg1 : g = g1 := congrArg Prod.fst hp
      subst hg1
      exact ⟨GExt.refl g, trivial⟩

theorem entRecord_err {g : Graph} {s : Summary} {d ty : String} {e : JVal} {st : St}
    (h : processEntityRecord g s d ty e = .error st) :
    st = (g, s) ∧ RecordErrs e := by
  cases e with
  | jobj fs =>
      unfold processEntityRecord at h
      cases hnm : lookupField "name" fs with
      | none => simp only [hnm] at h; exact absurd h (by simp)
      | some v =>
          cases v with
          | jstr raw =>
              simp only [hnm] at h
              by_cases hg : pyStrip raw ≠ "" ∧ pyStrip raw ≠ "Unknown"
              · rw [if_pos hg] at h; exact absurd h (by simp)
              · rw [if_neg hg] at h; exact absurd h (by simp)
          | jnull =>
              simp only [hnm] at h
              exact ⟨(Except.error.inj h).symm, by simp only [RecordErrs, hnm]⟩
          | jobj w =>
              simp only [hnm] at h
              exact ⟨(Except.error.inj h).symm, by simp only [RecordErrs, hnm]⟩
          | jlist w =>
              simp only [hnm] at h
              exact ⟨(Except.error.inj h).symm, by simp only [RecordErrs, hnm]⟩
  | jstr w =>
      replace h : (Except.ok (g, s) : Except St St) = .error st := h
      exact absurd h (by simp)
  | jnull =>
      replace h : (Except.ok (g, s) : Except St St) = .error st := h
      exact absurd h (by simp)
  | jlist w =>
      replace h : (Except.ok (g, s) : Except St St) = .error st := h
      exact absurd h (by simp)

theorem entRecord_noop (g : Graph) (s : Summary) (d ty : String) (e : JVal)
    (hWF : WF g) (hst : RecordSettled g ty e) :
    ∃ s1, processEntityRecord g s d ty e = .ok (g, s1) := by
  cases e with
  | jobj fs =>
      cases hnm : lookupField "name" fs with
      | none => exact ⟨s, by unfold processEntityRecord; simp only [hnm]⟩
      | some v =>
          cases v with
          | jstr raw =>
              simp only [RecordSettled, hnm] at hst
              by_cases hg : pyStrip raw ≠ "" ∧ pyStrip raw ≠ "Unknown"
              · have hset : EntitySettled g ty (pyStrip raw) (lookupField "id" fs) := hst hg
                have hnoop := processOneEntity_noop g s d ty (pyStrip raw)
                  (lookupField "id" fs) hWF hset
                refine ⟨(processOneEntity g s d ty (pyStrip raw) (lookupField "id" fs)).2, ?_⟩
                unfold processEntityRecord
                simp only [hnm]
                rw [if_pos hg]
                exact congrArg Except.ok (Prod.ext hnoop rfl)
              · refine ⟨s, ?_⟩
                unfold processEntityRecord
                simp only [hnm]
                rw [if_neg hg]
          | jnull => simp only [RecordSettled, hnm] at hst
          | jobj w => simp only [RecordSettled, hnm] at hst
          | jlist w => simp only [RecordSettled, hnm] at hst
  | jstr w => exact ⟨s, rfl⟩
  | jnull => exact ⟨s, rfl⟩
  | jlist w => exact ⟨s, rfl⟩

theorem entRecord_err_replay (g : Graph) (s : Summary) (d ty : String) (e : JVal)
    (he : RecordErrs e) :
    processEntityRecord g s d ty e = .error (g, s) := by
  cases e with
  | jobj fs =>
      cases hnm : lookupField "name" fs with
      | none => simp only [RecordErrs, hnm] at he
      | some v =>
          cases v with
          | jstr raw => simp only [RecordErrs, hnm] at he
          | jnull => unfold processEntityRecord; simp only [hnm]
          | jobj w => unfold processEntityRecord; simp only [hnm]
          | jlist w => unfold processEntityRecord; simp only [hnm]
  | jstr w => exact (he : False).elim
  | jnull => exact (he : False).elim
  | jlist w => exact (he : False).elim

/-- Error point of an entity list: records before it settled, the record at
it raising independently of the store. -/
def ListErrAt (g : Graph) (ty : String) : List JVal → Prop
  | [] => False
  | e :: rest => RecordErrs e ∨ (RecordSettled g ty e ∧ ListErrAt g ty rest)

theorem entList_facts {d ty : String} (es : List JVal) :
    ∀ {g : Graph} {s : Summary} {g1 : Graph} {s1 : Summary}, WF g →
      processEntityList g s d ty es = .ok (g1, s1) →
      GExt g g1 ∧ ∀ e ∈ es, RecordSettled g1 ty e := by
  induction es with
  | nil =>
      intro g s g1 s1 hWF h
      replace h : (Except.ok (g, s) : Except St St) = .ok (g1, s1) := h
      have hg1 : g = g1 := congrArg Prod.fst (Except.ok.inj h)
      subst hg1
      exact ⟨GExt.refl g, fun e he => absurd he (List.not_mem_nil e)⟩
  | cons e rest ih =>
      intro g s g1 s1 hWF h
      unfold processEntityList at h
      cases hr : processEntityRecord g s d ty e with
      | ok st =>
          obtain ⟨g', s'⟩ := st
          rw [hr] at h
          replace h : processEntityList g' s' d ty rest = .ok (g1, s1) := h
          obtain ⟨hx1, hset1⟩ := entRecord_facts hWF hr
          obtain ⟨hx2, hset2⟩ := ih (WF_stable hx1 hWF) h
          refine ⟨GExt.trans hx1 hx2, ?_⟩
          intro a ha
          rcases List.mem_cons.mp ha with rfl | ha
          · exact RecordSettled_stable hx2 ty a hset1
          · exact hset2 a ha
      | error st =>
          rw [hr] at h
          replace h : (Except.error st : Except St St) = .ok (g1, s1) := h
          exact absurd h (by simp)

theorem entList_err_facts {d ty : String} (es : List JVal) :
    ∀ {g : Graph} {s : Summary} {gE : Graph} {sE : Summary}, WF g →
      processEntityList g s d ty es = .error (gE, sE) →
      GExt g gE ∧ ListErrAt gE ty es := by
  induction es with
  | nil =>
      intro g s gE sE hWF h
      replace h : (Except.ok (g, s) : Except St St) = .error (gE, sE) := h
      exact absurd h (by simp)
  | cons e rest ih =>
      intro g s gE sE hWF h
      unfold processEntityList at h
      cases hr : processEntityRecord g s d ty e with
      | ok st =>
          obtain ⟨g', s'⟩ := st
          rw [hr] at h
          replace h : processEntityList g' s' d ty rest = .error (gE, sE) := h
          obtain ⟨hx1, hset1⟩ := entRecord_facts hWF hr
          obtain ⟨hx2, herr⟩ := ih (WF_stable hx1 hWF) h
          exact ⟨GExt.trans hx1 hx2,
            Or.inr ⟨RecordSettled_stable hx2 ty e hset1, herr⟩⟩
      | error st =>
          rw [hr] at h
          replace h : (Except.error st : Except St St) = .error (gE, sE) := h
          have hp : st = ((gE, sE) : St) := Except.error.inj h
          obtain ⟨hst, herrs⟩ := entRecord_err hr
          rw [hp] at hst
          have hgE : gE = g := congrArg Prod.fst hst
          subst hgE
          exact ⟨GExt.refl _, Or.inl herrs⟩

theorem entList_noop {d ty : String} (es : List JVal) :
    ∀ (g : Graph) (s : Summary), WF g → (∀ e ∈ es, RecordSettled g ty e) →
      ∃ s1, processEntityList g s d ty es = .ok (g, s1) := by
  induction es with
  | nil => intro g s hWF hset; exact ⟨s, rfl⟩
  | cons e rest ih =>
      intro g s hWF hset
      obtain ⟨s', hr⟩ := entRecord_noop g s d ty e hWF (hset e (by simp))
      obtain ⟨s1, hl⟩ := ih g s' hWF (fun a ha => hset a (by simp [ha]))
      refine ⟨s1, ?_⟩
      unfold processEntityList
      rw [hr]
      exact hl

theorem entList_err_replay {d ty : String} (es : List JVal) :
    ∀ (g : Graph) (s : Summary), WF g → ListErrAt g ty es →
      ∃ s1, processEntityList g s d ty es = .error (g, s1) := by
  induction es with
  | nil => intro g s hWF herr; exact (herr : False).elim
  | cons e rest ih =>
      intro g s hWF herr
      replace herr : RecordErrs e ∨ (RecordSettled g ty e ∧ ListErrAt g ty rest) := herr
      rcases herr with herr | ⟨hset, herr⟩
      · refine ⟨s, ?_⟩
        unfold processEntityList
        rw [entRecord_err_replay g s d ty e herr]
      · obtain ⟨s', hr⟩ := entRecord_noop g s d ty e hWF hset
        obtain ⟨s1, hl⟩ := ih g s' hWF herr
        refine ⟨s1, ?_⟩
        unfold processEntityList
        rw [hr]
        exact hl

/-- Error point of the entity phase across the recognized payload keys. -/
def EntPhaseErrAt (g : Graph) (data : List (String × JVal)) :
    List (String × String) → Prop
  | [] => False
  | (key, ty) :: rest =>
      match lookupField key data with
      | some (.jlist es) =>
          ListErrAt g ty es ∨
            ((∀ e ∈ es, RecordSettled g ty e) ∧ EntPhaseErrAt g data rest)
      | _ => EntPhaseErrAt g data rest

theorem EntPhaseErrAt_cons (g : Graph) (data : List (String × JVal))
    (key ty : String) (rest : List (String × String)) :
    EntPhaseErrAt g data ((key, ty) :: rest) =
      (match lookupField key data with
       | some (.jlist es) =>
           ListErrAt g ty es ∨
             ((∀ e ∈ es, RecordSettled g ty e) ∧ EntPhaseErrAt g data rest)
       | _ => EntPhaseErrAt g data rest) := rfl

theorem entPhaseAux_facts {d : String} {data : List (String × JVal)}
    (kts : List (String × String)) :
    ∀ {g : Graph} {s : Summary} {g1 : Graph} {s1 : Summary}, WF g →
      entityPhaseAux g s d data kts = .ok (g1, s1) →
      GExt g g1 ∧ ∀ kt ∈ kts, ∀ es, lookupField kt.1 data = some (.jlist es) →
        ∀ e ∈ es, RecordSettled g1 kt.2 e := by
  induction kts with
  | nil =>
      intro g s g1 s1 hWF h
      replace h : (Except.ok (g, s) : Except St St) = .ok (g1, s1) := h
      have hg1 : g = g1 := congrArg Prod.fst (Except.ok.inj h)
      subst hg1
      exact ⟨GExt.refl g, fun kt hkt => absurd hkt (List.not_mem_nil kt)⟩
  | cons kt rest ih =>
      intro g s g1 s1 hWF h
      obtain ⟨key, ty⟩ := kt
      unfold entityPhaseAux at h
      cases hv : lookupField key data with
      | none =>
          simp only [hv] at h
          obtain ⟨hx, hrest⟩ := ih hWF h
          refine ⟨hx, ?_⟩
          intro kt hkt es hes
          rcases List.mem_cons.mp hkt with rfl | hkt
          · replace hes : lookupField key data = some (.jlist es) := hes
            rw [hv] at hes
            exact absurd hes (by simp)
          · exact hrest kt hkt es hes
      | some v =>
          cases v with
          | jlist es0 =>
              simp only [hv] at h
              cases hl : processEntityList g s d ty es0 with
              | ok st =>
                  obtain ⟨g', s'⟩ := st
                  rw [hl] at h
                  replace h : entityPhaseAux g' s' d data rest = .ok (g1, s1) := h
                  obtain ⟨hx1, hset1⟩ := entList_facts es0 hWF hl
                  obtain ⟨hx2, hrest⟩ := ih (WF_stable hx1 hWF) h
                  refine ⟨GExt.trans hx1 hx2, ?_⟩
                  intro kt hkt es hes
                  rcases List.mem_cons.mp hkt with rfl | hkt
                  · replace hes : lookupField key data = some (.jlist es) := hes
                    rw [hv] at hes
                    have hes1 : JVal.jlist es0 = JVal.jlist es := Option.some.inj hes
                    have hes2 : es0 = es := JVal.jlist.inj hes1
                    subst hes2
                    intro e he
                    exact RecordSettled_stable hx2 ty e (hset1 e he)
                  · exact hrest kt hkt es hes
              | error st =>
                  rw [hl] at h
                  replace h : (Except.error st : Except St St) = .ok (g1, s1) := h
                  exact absurd h (by simp)
          | jstr w =>
              simp only [hv] at h
              obtain ⟨hx, hrest⟩ := ih hWF h
              refine ⟨hx, ?_⟩
              intro kt hkt es hes
              rcases List.mem_cons.mp hkt with rfl | hkt
              · replace hes : lookupField key data = some (.jlist es) := hes
                rw [hv] at hes
                exact absurd hes (by simp)
              · exact hrest kt hkt es hes
          | jnull =>
              simp only [hv] at h
              obtain ⟨hx, hrest⟩ := ih hWF h
              refine ⟨hx, ?_⟩
              intro kt hkt es hes
              rcases List.mem_cons.mp hkt with rfl | hkt
              · replace hes : lookupField key data = some (.jlist es) := hes
                rw [hv] at hes
                exact absurd hes (by simp)
              · exact hrest kt hkt es hes
          | jobj w =>
              simp only [hv] at h
              obtain ⟨hx, hrest⟩ := ih hWF h
              refine ⟨hx, ?_⟩
              intro kt hkt es hes
              rcases List.mem_cons.mp hkt with rfl | hkt
              · replace hes : lookupField key data = some (.jlist es) := hes
                rw [hv] at hes
                exact absurd hes (by simp)
              · exact hrest kt hkt es hes

theorem entPhaseAux_err_facts {d : String} {data : List (String × JVal)}
    (kts : List (String × String)) :
    ∀ {g : Graph} {s : Summary} {gE : Graph} {sE : Summary}, WF g →
      entityPhaseAux g s d data kts = .error (gE, sE) →
      GExt g gE ∧ EntPhaseErrAt gE data kts := by
  induction kts with
  | nil =>
      intro g s gE sE hWF h
      replace h : (Except.ok (g, s) : Except St St) = .error (gE, sE) := h
      exact absurd h (by simp)
  | cons kt rest ih =>
      intro g s gE sE hWF h
      obtain ⟨key, ty⟩ := kt
      unfold entityPhaseAux at h
      cases hv : lookupField key data with
      | none =>
          simp only [hv] at h
          obtain ⟨hx, herr⟩ := ih hWF h
          refine ⟨hx, ?_⟩
          rw [EntPhaseErrAt_cons, hv]
          exact herr
      | some v =>
          cases v with
          | jlist es0 =>
              simp only [hv] at h
              cases hl : processEntityList g s d ty es0 with
              | ok st =>
                  obtain ⟨g', s'⟩ := st
                  rw [hl] at h
                  replace h : entityPhaseAux g' s' d data rest = .error (gE, sE) := h
                  obtain ⟨hx1, hset1⟩ := entList_facts es0 hWF hl
                  obtain ⟨hx2, herr⟩ := ih (WF_stable hx1 hWF) h
                  refine ⟨GExt.trans hx1 hx2, ?_⟩
                  rw [EntPhaseErrAt_cons, hv]
                  exact Or.inr ⟨fun e he => RecordSettled_stable hx2 ty e (hset1 e he), herr⟩
              | error st =>
                  obtain ⟨gx, sx⟩ := st
                  rw [hl] at h
                  replace h : (Except.error (gx, sx) : Except St St) = .error (gE, sE) := h
                  have hp : ((gx, sx) : St) = (gE, sE) := Except.error.inj h
                  have hgx : gx = gE := congrArg Prod.fst hp
                  subst hgx
                  obtain ⟨hx1, herr1⟩ := entList_err_facts es0 hWF hl
                  refine ⟨hx1, ?_⟩
                  rw [EntPhaseErrAt_cons, hv]
                  exact Or.inl herr1
          | jstr w =>
              simp only [hv] at h
              obtain ⟨hx, herr⟩ := ih hWF h
              refine ⟨hx, ?_⟩
              rw [EntPhaseErrAt_cons, hv]
              exact herr
          | jnull =>
              simp only [hv] at h
              obtain ⟨hx, herr⟩ := ih hWF h
              refine ⟨hx, ?_⟩
              rw [EntPhaseErrAt_cons, hv]
              exact herr
          | jobj w =>
              simp only [hv] at h
              obtain ⟨hx, herr⟩ := ih hWF h
              refine ⟨hx, ?_⟩
              rw [EntPhaseErrAt_cons, hv]
              exact herr

theorem entPhaseAux_noop {d : String} {data : List (String × JVal)}
    (kts : List (String × String)) :
    ∀ (g : Graph) (s : Summary), WF g →
      (∀ kt ∈ kts, ∀ es, lookupField kt.1 data = some (.jlist es) →
        ∀ e ∈ es, RecordSettled g kt.2 e) →
      ∃ s1, entityPhaseAux g s d data kts = .ok (g, s1) := by
  induction kts with
  | nil => intro g s hWF hset; exact ⟨s, rfl⟩
  | cons kt rest ih =>
      intro g s hWF hset
      obtain ⟨key, ty⟩ := kt
      cases hv : lookupField key data with
      | none =>
          obtain ⟨s1, hrest⟩ := ih g s hWF (fun kt hkt => hset kt (by simp [hkt]))
          refine ⟨s1, ?_⟩
          unfold entityPhaseAux
          simp only [hv]
          exact hrest
      | some v =>
          cases v with
          | jlist es =>
              have hsetl : ∀ e ∈ es, RecordSettled g ty e := hset (key, ty) (by simp) es hv
              obtain ⟨s', hl⟩ := entList_noop es g s hWF hsetl
              obtain ⟨s1, hrest⟩ := ih g s' hWF (fun kt hkt => hset kt (by simp [hkt]))
              refine ⟨s1, ?_⟩
              unfold entityPhaseAux
              simp only [hv]
              rw [hl]
              exact hrest
          | jstr w =>
              obtain ⟨s1, hrest⟩ := ih g s hWF (fun kt hkt => hset kt (by simp [hkt]))
              refine ⟨s1, ?_⟩
              unfold entityPhaseAux
              simp only [hv]
              exact hrest
          | jnull =>
              obtain ⟨s1, hrest⟩ := ih g s hWF (fun kt hkt => hset kt (by simp [hkt]))
              refine ⟨s1, ?_⟩
              unfold entityPhaseAux
              simp only [hv]
              exact hrest
          | jobj w =>
              obtain ⟨s1, hrest⟩ := ih g s hWF (fun kt hkt => hset kt (by simp [hkt]))
              refine ⟨s1, ?_⟩
              unfold entityPhaseAux
              simp only [hv]
              exact hrest

theorem entPhaseAux_err_replay {d : String} {data : List (String × JVal)}
    (kts : List (String × String)) :
    ∀ (g : Graph) (s : Summary), WF g → EntPhaseErrAt g data kts →
      ∃ s1, entityPhaseAux g s d data kts = .error (g, s1) := by
  induction kts with
  | nil => intro g s hWF herr; exact (herr : False).elim
  | cons kt rest ih =>
      intro g s hWF herr
      obtain ⟨key, ty⟩ := kt
      rw [EntPhaseErrAt_cons] at herr
      cases hv : lookupField key data with
      | none =>
          rw [hv] at herr
          replace herr : EntPhaseErrAt g data rest := herr
          obtain ⟨s1, hrest⟩ := ih g s hWF herr
          refine ⟨s1, ?_⟩
          unfold entityPhaseAux
          simp only [hv]
          exact hrest
      | some v =>
          cases v with
          | jlist es =>
              rw [hv] at herr
              replace herr : ListErrAt g ty es ∨
                  ((∀ e ∈ es, RecordSettled g ty e) ∧ EntPhaseErrAt g data rest) := herr
              rcases herr with herr | ⟨hsetl, herr⟩
              · obtain ⟨s1, hl⟩ := entList_err_replay es g s hWF herr
                refine ⟨s1, ?_⟩
                unfold entityPhaseAux
                simp only [hv]
                rw [hl]
              · obtain ⟨s', hl⟩ := entList_noop es g s hWF hsetl
                obtain ⟨s1, hrest⟩ := ih g s' hWF herr
                refine ⟨s1, ?_⟩
                unfold entityPhaseAux
                simp only [hv]
                rw [hl]
                exact hrest
          | jstr w =>
              rw [hv] at herr
              replace herr : EntPhaseErrAt g data rest := herr
              obtain ⟨s1, hrest⟩ := ih g s hWF herr
              refine ⟨s1, ?_⟩
              unfold entityPhaseAux
              simp only [hv]
              exact hrest
          | jnull =>
              rw [hv] at herr
              replace herr : EntPhaseErrAt g data rest := herr
              obtain ⟨s1, hrest⟩ := ih g s hWF herr
              refine ⟨s1, ?_⟩
              unfold entityPhaseAux
              simp only [hv]
              exact hrest
          | jobj w =>
              rw [hv] at herr
              replace herr : EntPhaseErrAt g data rest := herr
              obtain ⟨s1, hrest⟩ := ih g s hWF herr
              refine ⟨s1, ?_⟩
              unfold entityPhaseAux
              simp only [hv]
              exact hrest

/-- A relationship record whose relation-type resolution raises at
`.strip()` (truthy non-string `kg_relation_type`), independently of the
store. -/
def RelErrs (key : String) (r : JVal) : Prop :=
  match r with
  | .jobj fs =>
      match resolveKgType (defaultRelTypeFor key) fs with
      | .error _ => True
      | .ok _ => False
  | _ => False

/-- After a pass has handled a relationship record, replaying it against
the same store finds the relationship already present (or again resolves
no endpoint pair) and mutates nothing. -/
def RelSettled (valid : List String) (g : Graph) (key : String) (r : JVal) : Prop :=
  match r with
  | .jobj fs =>
      match resolveKgType (defaultRelTypeFor key) fs with
      | .error _ => False
      | .ok kg =>
          match extract_entities_from_relationship fs with
          | (some n1, some n2) =>
              n1 ≠ "" ∧ n2 ≠ "" →
                relFlow valid g n1 n2 (validate_relation_type valid kg) = (g, false)
          | _ => True
  | _ => True

/-- A failed exists/create pass leaves the store untouched. -/
theorem relFlow_false_eq (valid : List String) (g : Graph) (n1 n2 V : String)
    {gf : Graph} (h : relFlow valid g n1 n2 V = (gf, false)) : gf = g := by
  unfold relFlow at h
  by_cases hex : relationship_exists g n1 n2 V = true
  · rw [if_pos hex] at h
    exact (congrArg Prod.fst h).symm
  · rw [if_neg hex] at h
    unfold create_relationship at h
    by_cases hguard : (n1 == "" || n2 == "" || V == "") = true
    · rw [if_pos hguard] at h
      exact (congrArg Prod.fst h).symm
    · rw [if_neg hguard] at h
      cases hfa : g.nodes.find? (fun a => matchesName a (pyStrip n1)) with
      | none =>
          rw [hfa] at h
          have hh : ((g, false) : Graph × Bool) = (gf, false) := h
          exact (congrArg Prod.fst hh).symm
      | some a =>
          rw [hfa] at h
          cases hfb : g.nodes.find? (fun b => matchesName b (pyStrip n2)) with
          | none =>
              rw [hfb] at h
              have hh : ((g, false) : Graph × Bool) = (gf, false) := h
              exact (congrArg Prod.fst hh).symm
          | some b =>
              rw [hfb] at h
              have hh : (({ g with edges := g.edges ++
                  [⟨validate_relation_type valid V, a.nodeId, b.nodeId, [tag]⟩] },
                  true) : Graph × Bool) = (gf, false) := h
              exact absurd (congrArg Prod.snd hh : (true : Bool) = false) (by simp)

/-- A successful create pass appends one edge and makes the bidirectional
existence check true for the same (once-validated) relation type, provided
validation is idempotent on it. -/
theorem relFlow_true_facts (valid : List String) (g : Graph) (n1 n2 V : String)
    (hWF : WF g) (hV2 : validate_relation_type valid V = V)
    {gf : Graph} (h : relFlow valid g n1 n2 V = (gf, true)) :
    EExt g gf ∧ relationship_exists gf n1 n2 V = true := by
  unfold relFlow at h
  by_cases hex : relationship_exists g n1 n2 V = true
  · rw [if_pos hex] at h
    exact absurd (congrArg Prod.snd h : (false : Bool) = true) (by simp)
  · rw [if_neg hex] at h
    unfold create_relationship at h
    by_cases hguard : (n1 == "" || n2 == "" || V == "") = true
    · rw [if_pos hguard] at h
      exact absurd (congrArg Prod.snd h : (false : Bool) = true) (by simp)
    · rw [if_neg hguard] at h
      cases hfa : g.nodes.find? (fun a => matchesName a (pyStrip n1)) with
      | none =>
          rw [hfa] at h
          have hh : ((g, false) : Graph × Bool) = (gf, true) := h
          exact absurd (congrArg Prod.snd hh : (false : Bool) = true) (by simp)
      | some a =>
          rw [hfa] at h
          cases hfb : g.nodes.find? (fun b => matchesName b (pyStrip n2)) with
          | none =>
              rw [hfb] at h
              have hh : ((g, false) : Graph × Bool) = (gf, true) := h
              exact absurd (congrArg Prod.snd hh : (false : Bool) = true) (by simp)
          | some b =>
              rw [hfb] at h
              have hh : (({ g with edges := g.edges ++
                  [⟨validate_relation_type valid V, a.nodeId, b.nodeId, [tag]⟩] },
                  true) : Graph × Bool) = (gf, true) := h
              have hgf : ({ g with edges := g.edges ++
                  [⟨validate_relation_type valid V, a.nodeId, b.nodeId, [tag]⟩] } : Graph)
                  = gf := congrArg Prod.fst hh
              subst hgf
              constructor
              · exact ⟨rfl, rfl, _, rfl⟩
              · have hma : matchesName a (pyStrip n1) = true := by
                  simpa using List.find?_some hfa
                have hmb : matchesName b (pyStrip n2) = true := by
                  simpa using List.find?_some hfb
                have hga : getNode { g with edges := g.edges ++
                    [⟨validate_relation_type valid V, a.nodeId, b.nodeId, [tag]⟩] }
                    a.nodeId = some a :=
                  WF_getNode_self hWF (List.mem_of_find?_eq_some hfa)
                have hgb : getNode { g with edges := g.edges ++
                    [⟨validate_relation_type valid V, a.nodeId, b.nodeId, [tag]⟩] }
                    b.nodeId = some b :=
                  WF_getNode_self hWF (List.mem_of_find?_eq_some hfb)
                unfold relationship_exists
                rw [if_neg hguard]
                refine List.any_eq_true.mpr
                  ⟨⟨validate_relation_type valid V, a.nodeId, b.nodeId, [tag]⟩, by simp, ?_⟩
                simp only [hV2] at hga hgb
                simp only [hV2, hga, hgb, hma, hmb]
                simp

/-- A create pass that mutated nothing replays identically on any store
with the same nodes. -/
theorem create_relationship_false_congr {g h : Graph} (hn : h.nodes = g.nodes)
    (valid : List String) (n1 n2 V : String)
    (hc : create_relationship valid g n1 n2 V = (g, false)) :
    create_relationship valid h n1 n2 V = (h, false) := by
  unfold create_relationship at hc ⊢
  by_cases hguard : (n1 == "" || n2 == "" || V == "") = true
  · rw [if_pos hguard]
  · rw [if_neg hguard] at hc ⊢
    rw [hn]
    cases hfa : g.nodes.find? (fun a => matchesName a (pyStrip n1)) with
    | none => rfl
    | some a =>
        rw [hfa] at hc
        cases hfb : g.nodes.find? (fun b => matchesName b (pyStrip n2)) with
        | none => rfl
        | some b =>
            rw [hfb] at hc
            have hh : (({ g with edges := g.edges ++
                [⟨validate_relation_type valid V, a.nodeId, b.nodeId, [tag]⟩] },
                true) : Graph × Bool) = (g, false) := hc
            exact absurd (congrArg Prod.snd hh : (true : Bool) = false) (by simp)

theorem RelSettled_stable (valid : List String) {g h : Graph} (hx : EExt g h)
    (key : String) (r : JVal) (hst : RelSettled valid g key r) :
    RelSettled valid h key r := by
  cases r with
  | jobj fs =>
      cases hres : resolveKgType (defaultRelTypeFor key) fs with
      | error u => simp only [RelSettled, hres] at hst
      | ok kg =>
          simp only [RelSettled, hres] at hst ⊢
          cases hext : extract_entities_from_relationship fs with
          | mk o1 o2 =>
            cases o1 with
            | none => exact trivial
            | some n1 =>
              cases o2 with
              | none => exact trivial
              | some n2 =>
                  rw [hext] at hst
                  intro hg
                  have hflow := hst hg
                  unfold relFlow at hflow ⊢
                  by_cases hex : relationship_exists h n1 n2
                      (validate_relation_type valid kg) = true
                  · rw [if_pos hex]
                  · rw [if_neg hex]
                    have hexg : ¬ relationship_exists g n1 n2
                        (validate_relation_type valid kg) = true := by
                      intro hcon
                      exact hex (relationship_exists_stable (GExt_of_EExt hx) n1 n2
                        (validate_relation_type valid kg) hcon)
                    rw [if_neg hexg] at hflow
                    exact create_relationship_false_congr hx.1 valid n1 n2
                      (validate_relation_type valid kg) hflow
  | jstr w => exact trivial
  | jnull => exact trivial
  | jlist w => exact trivial

theorem relRecord_facts {valid : List String}
    (hVI : ∀ t, validate_relation_type valid (validate_relation_type valid t) =
      validate_relation_type valid t)
    {g : Graph} {s : Summary} {d key : String} {r : JVal} {g1 : Graph} {s1 : Summary}
    (hWF : WF g) (h : processRelRecord valid g s d key r = .ok (g1, s1)) :
    EExt g g1 ∧ RelSettled valid g1 key r := by
  cases r with
  | jobj fs =>
      unfold processRelRecord at h
      cases hres : resolveKgType (defaultRelTypeFor key) fs with
      | error u =>
          simp only [hres] at h
          exact absurd h (by simp)
      | ok kg =>
          simp only [hres] at h
          cases hext : extract_entities_from_relationship fs with
          | mk o1 o2 =>
            cases o1 with
            | none =>
                simp only [hext] at h
                replace h : (Except.ok (g, s) : Except St St) = .ok (g1, s1) := h
                have hg1 : g = g1 := congrArg Prod.fst (Except.ok.inj h)
                subst hg1
                refine ⟨EExt.refl g, ?_⟩
                simp only [RelSettled, hres]
                rw [hext]
                exact trivial
            | some n1 =>
              cases o2 with
              | none =>
                  simp only [hext] at h
                  replace h : (Except.ok (g, s) : Except St St) = .ok (g1, s1) := h
                  have hg1 : g = g1 := congrArg Prod.fst (Except.ok.inj h)
                  subst hg1
                  refine ⟨EExt.refl g, ?_⟩
                  simp only [RelSettled, hres]
                  rw [hext]
                  exact trivial
              | some n2 =>
                  simp only [hext] at h
                  by_cases hg : n1 ≠ "" ∧ n2 ≠ ""
                  · rw [if_pos hg] at h
                    cases hflow : relFlow valid g n1 n2
                        (validate_relation_type valid kg) with
                    | mk gf created =>
                      rw [hflow] at h
                      cases created with
                      | true =>
                          replace h : (Except.ok (gf, incNewRel s n1 n2
                              (validate_relation_type valid kg) d) : Except St St)
                              = .ok (g1, s1) := h
                          have hg1 : gf = g1 := congrArg Prod.fst (Except.ok.inj h)
                          subst hg1
                          obtain ⟨hEE, hexists⟩ := relFlow_true_facts valid g n1 n2
                            (validate_relation_type valid kg) hWF (hVI kg) hflow
                          refine ⟨hEE, ?_⟩
                          simp only [RelSettled, hres]
                          rw [hext]
                          intro hg2
                          unfold relFlow
                          rw [if_pos hexists]
                      | false =>
                          replace h : (Except.ok (gf, s) : Except St St)
                              = .ok (g1, s1) := h
                          have hg1 : gf = g1 := congrArg Prod.fst (Except.ok.inj h)
                          subst hg1
                          have hgf : gf = g := relFlow_false_eq valid g n1 n2
                            (validate_relation_type valid kg) hflow
                          subst hgf
                          refine ⟨EExt.refl _, ?_⟩
                          simp only [RelSettled, hres]
                          rw [hext]
                          intro hg2
                          exact hflow
                  · rw [if_neg hg] at h
                    replace h : (Except.ok (g, s) : Except St St) = .ok (g1, s1) := h
                    have hg1 : g = g1 := congrArg Prod.fst (Except.ok.inj h)
                    subst hg1
                    refine ⟨EExt.refl g, ?_⟩
                    simp only [RelSettled, hres]
                    rw [hext]
                    intro hg2
                    exact absurd hg2 hg
  | jstr w =>
      replace h : (Except.ok (g, s) : Except St St) = .ok (g1, s1) := h
      have hg1 : g = g1 := congrArg Prod.fst (Except.ok.inj h)
      subst hg1
      exact ⟨EExt.refl g, trivial⟩
  | jnull =>
      replace h : (Except.ok (g, s) : Except St St) = .ok (g1, s1) := h
      have hg1 : g = g1 := congrArg Prod.fst (Except.ok.inj h)
      subst hg1
      exact ⟨EExt.refl g, trivial⟩
  | jlist w =>
      replace h : (Except.ok (g, s) : Except St St) = .ok (g1, s1) := h
      have hg1 : g = g1 := congrArg Prod.fst (Except.ok.inj h)
      subst hg1
      exact ⟨EExt.refl g, trivial⟩

theorem relRecord_err {valid : List String} {g : Graph} {s : Summary}
    {d key : String} {r : JVal} {st : St}
    (h : processRelRecord valid g s d key r = .error st) :
    st = (g, s) ∧ RelErrs key r := by
  cases r with
  | jobj fs =>
      unfold processRelRecord at h
      cases hres : resolveKgType (defaultRelTypeFor key) fs with
      | error u =>
          simp only [hres] at h
          exact ⟨(Except.error.inj h).symm, by simp only [RelErrs, hres]⟩
      | ok kg =>
          simp only [hres] at h
          cases hext : extract_entities_from_relationship fs with
          | mk o1 o2 =>
            cases o1 with
            | none =>
                simp only [hext] at h
                replace h : (Except.ok (g, s) : Except St St) = .error st := h
                exact absurd h (by simp)
            | some n1 =>
              cases o2 with
              | none =>
                  simp only [hext] at h
                  replace h : (Except.ok (g, s) : Except St St) = .error st := h
                  exact absurd h (by simp)
              | some n2 =>
                  simp only [hext] at h
                  by_cases hg : n1 ≠ "" ∧ n2 ≠ ""
                  · rw [if_pos hg] at h
                    cases hflow : relFlow valid g n1 n2
                        (validate_relation_type valid kg) with
                    | mk gf created =>
                      rw [hflow] at h
                      cases created with
                      | true =>
                          replace h : (Except.ok (gf, incNewRel s n1 n2
                              (validate_relation_type valid kg) d) : Except St St)
                              = .error st := h
                          exact absurd h (by simp)
                      | false =>
                          replace h : (Except.ok (gf, s) : Except St St) = .error st := h
                          exact absurd h (by simp)
                  · rw [if_neg hg] at h
                    replace h : (Except.ok (g, s) : Except St St) = .error st := h
                    exact absurd h (by simp)
  | jstr w =>
      replace h : (Except.ok (g, s) : Except St St) = .error st := h
      exact absurd h (by simp)
  | jnull =>
      replace h : (Except.ok (g, s) : Except St St) = .error st := h
      exact absurd h (by simp)
  | jlist w =>
      replace h : (Except.ok (g, s) : Except St St) = .error st := h
      exact absurd h (by simp)

theorem relRecord_noop (valid : List String) (g : Graph) (s : Summary)
    (d key : String) (r : JVal) (hst : RelSettled valid g key r) :
    processRelRecord valid g s d key r = .ok (g, s) := by
  cases r with
  | jobj fs =>
      unfold processRelRecord
      cases hres : resolveKgType (defaultRelTypeFor key) fs with
      | error u => simp only [RelSettled, hres] at hst
      | ok kg =>
          simp only [RelSettled, hres] at hst
          simp only [hres]
          cases hext : extract_entities_from_relationship fs with
          | mk o1 o2 =>
            cases o1 with
            | none => rfl
            | some n1 =>
              cases o2 with
              | none => rfl
              | some n2 =>
                  rw [hext] at hst
                  dsimp only at hst ⊢
                  by_cases hg : n1 ≠ "" ∧ n2 ≠ ""
                  · rw [if_pos hg]
                    rw [hst hg]
                  · rw [if_neg hg]
  | jstr w => rfl
  | jnull => rfl
  | jlist w => rfl

theorem relRecord_err_replay (valid : List String) (g : Graph) (s : Summary)
    (d key : String) (r : JVal) (he : RelErrs key r) :
    processRelRecord valid g s d key r = .error (g, s) := by
  cases r with
  | jobj fs =>
      cases hres : resolveKgType (defaultRelTypeFor key) fs with
      | error u =>
          unfold processRelRecord
          simp only [hres]
      | ok kg => simp only [RelErrs, hres] at he
  | jstr w => exact (he : False).elim
  | jnull => exact (he : False).elim
  | jlist w => exact (he : False).elim

/-- Error point of a relationship list. -/
def RelListErrAt (valid : List String) (g : Graph) (key : String) : List JVal → Prop
  | [] => False
  | r :: rest => RelErrs key r ∨ (RelSettled valid g key r ∧ RelListErrAt valid g key rest)

theorem relList_facts {valid : List String}
    (hVI : ∀ t, validate_relation_type valid (validate_relation_type valid t) =
      validate_relation_type valid t) {d key : String} (rs : List JVal) :
    ∀ {g : Graph} {s : Summary} {g1 : Graph} {s1 : Summary}, WF g →
      processRelList valid g s d key rs = .ok (g1, s1) →
      EExt g g1 ∧ ∀ r ∈ rs, RelSettled valid g1 key r := by
  induction rs with
  | nil =>
      intro g s g1 s1 hWF h
      replace h : (Except.ok (g, s) : Except St St) = .ok (g1, s1) := h
      have hg1 : g = g1 := congrArg Prod.fst (Except.ok.inj h)
      subst hg1
      exact ⟨EExt.refl g, fun r hr => absurd hr (List.not_mem_nil r)⟩
  | cons r rest ih =>
      intro g s g1 s1 hWF h
      unfold processRelList at h
      cases hr : processRelRecord valid g s d key r with
      | ok st =>
          obtain ⟨g', s'⟩ := st
          rw [hr] at h
          replace h : processRelList valid g' s' d key rest = .ok (g1, s1) := h
          obtain ⟨hx1, hset1⟩ := relRecord_facts hVI hWF hr
          obtain ⟨hx2, hset2⟩ := ih (EExt_WF hx1 hWF) h
          refine ⟨EExt.trans hx1 hx2, ?_⟩
          intro a ha
          rcases List.mem_cons.mp ha with rfl | ha
          · exact RelSettled_stable valid hx2 key a hset1
          · exact hset2 a ha
      | error st =>
          rw [hr] at h
          replace h : (Except.error st : Except St St) = .ok (g1, s1) := h
          exact absurd h (by simp)

theorem relList_err_facts {valid : List String}
    (hVI : ∀ t, validate_relation_type valid (validate_relation_type valid t) =
      validate_relation_type valid t) {d key : String} (rs : List JVal) :
    ∀ {g : Graph} {s : Summary} {gE : Graph} {sE : Summary}, WF g →
      processRelList valid g s d key rs = .error (gE, sE) →
      EExt g gE ∧ RelListErrAt valid gE key rs := by
  induction rs with
  | nil =>
      intro g s gE sE hWF h
      replace h : (Except.ok (g, s) : Except St St) = .error (gE, sE) := h
      exact absurd h (by simp)
  | cons r rest ih =>
      intro g s gE sE hWF h
      unfold processRelList at h
      cases hr : processRelRecord valid g s d key r with
      | ok st =>
          obtain ⟨g', s'⟩ := st
          rw [hr] at h
          replace h : processRelList valid g' s' d key rest = .error (gE, sE) := h
          obtain ⟨hx1, hset1⟩ := relRecord_facts hVI hWF hr
          obtain ⟨hx2, herr⟩ := ih (EExt_WF hx1 hWF) h
          exact ⟨EExt.trans hx1 hx2,
            Or.inr ⟨RelSettled_stable valid hx2 key r hset1, herr⟩⟩
      | error st =>
          rw [hr] at h
          replace h : (Except.error st : Except St St) = .error (gE, sE) := h
          have hp : st = ((gE, sE) : St) := Except.error.inj h
          obtain ⟨hst, herrs⟩ := relRecord_err hr
          rw [hp] at hst
          have hgE : gE = g := congrArg Prod.fst hst
          subst hgE
          exact ⟨EExt.refl _, Or.inl herrs⟩

theorem relList_noop (valid : List String) {d key : String} (rs : List JVal) :
    ∀ (g : Graph) (s : Summary), (∀ r ∈ rs, RelSettled valid g key r) →
      processRelList valid g s d key rs = .ok (g, s) := by
  induction rs with
  | nil => intro g s hset; rfl
  | cons r rest ih =>
      intro g s hset
      unfold processRelList
      rw [relRecord_noop valid g s d key r (hset r (by simp))]
      exact ih g s (fun a ha => hset a (by simp [ha]))

theorem relList_err_replay (valid : List String) {d key : String} (rs : List JVal) :
    ∀ (g : Graph) (s : Summary), RelListErrAt valid g key rs →
      processRelList valid g s d key rs = .error (g, s) := by
  induction rs with
  | nil => intro g s herr; exact (herr : False).elim
  | cons r rest ih =>
      intro g s herr
      replace herr : RelErrs key r ∨
          (RelSettled valid g key r ∧ RelListErrAt valid g key rest) := herr
      rcases herr with herr | ⟨hset, herr⟩
      · unfold processRelList
        rw [relRecord_err_replay valid g s d key r herr]
      · unfold processRelList
        rw [relRecord_noop valid g s d key r hset]
        exact ih g s herr

/-- Error point of the relationship phase across the payload items. -/
def RelPhaseErrAt (valid : List String) (g : Graph) : List (String × JVal) → Prop
  | [] => False
  | (key, v) :: rest =>
      match v with
      | .jlist rs =>
          if isRelKey key then
            RelListErrAt valid g key rs ∨
              ((∀ r ∈ rs, RelSettled valid g key r) ∧ RelPhaseErrAt valid g rest)
          else RelPhaseErrAt valid g rest
      | _ => RelPhaseErrAt valid g rest

theorem RelPhaseErrAt_cons (valid : List String) (g : Graph) (key : String)
    (v : JVal) (rest : List (String × JVal)) :
    RelPhaseErrAt valid g ((key, v) :: rest) =
      (match v with
       | .jlist rs =>
           if isRelKey key then
             RelListErrAt valid g key rs ∨
               ((∀ r ∈ rs, RelSettled valid g key r) ∧ RelPhaseErrAt valid g rest)
           else RelPhaseErrAt valid g rest
       | _ => RelPhaseErrAt valid g rest) := rfl

theorem relPhaseAux_facts {valid : List String}
    (hVI : ∀ t, validate_relation_type valid (validate_relation_type valid t) =
      validate_relation_type valid t) {d : String} (items : List (String × JVal)) :
    ∀ {g : Graph} {s : Summary} {g1 : Graph} {s1 : Summary}, WF g →
      relPhaseAux valid g s d items = .ok (g1, s1) →
      EExt g g1 ∧ ∀ kv ∈ items, ∀ rs, kv.2 = JVal.jlist rs → isRelKey kv.1 = true →
        ∀ r ∈ rs, RelSettled valid g1 kv.1 r := by
  induction items with
  | nil =>
      intro g s g1 s1 hWF h
      replace h : (Except.ok (g, s) : Except St St) = .ok (g1, s1) := h
      have hg1 : g = g1 := congrArg Prod.fst (Except.ok.inj h)
      subst hg1
      exact ⟨EExt.refl g, fun kv hkv => absurd hkv (List.not_mem_nil kv)⟩
  | cons kv rest ih =>
      intro g s g1 s1 hWF h
      obtain ⟨key, v⟩ := kv
      unfold relPhaseAux at h
      cases v with
      | jlist rs0 =>
          dsimp only at h
          by_cases hik : isRelKey key = true
          · rw [if_pos hik] at h
            cases hl : processRelList valid g s d key rs0 with
            | ok st =>
                obtain ⟨g', s'⟩ := st
                rw [hl] at h
                replace h : relPhaseAux valid g' s' d rest = .ok (g1, s1) := h
                obtain ⟨hx1, hset1⟩ := relList_facts hVI rs0 hWF hl
                obtain ⟨hx2, hrest⟩ := ih (EExt_WF hx1 hWF) h
                refine ⟨EExt.trans hx1 hx2, ?_⟩
                intro kv hkv rs hrs hik2
                rcases List.mem_cons.mp hkv with rfl | hkv
                · replace hrs : JVal.jlist rs0 = JVal.jlist rs := hrs
                  have hrs2 : rs0 = rs := JVal.jlist.inj hrs
                  subst hrs2
                  intro r hr
                  exact RelSettled_stable valid hx2 key r (hset1 r hr)
                · exact hrest kv hkv rs hrs hik2
            | error st =>
                rw [hl] at h
                replace h : (Except.error st : Except St St) = .ok (g1, s1) := h
                exact absurd h (by simp)
          · rw [if_neg hik] at h
            obtain ⟨hx, hrest⟩ := ih hWF h
            refine ⟨hx, ?_⟩
            intro kv hkv rs hrs hik2
            rcases List.mem_cons.mp hkv with rfl | hkv
            · replace hik2 : isRelKey key = true := hik2
              exact absurd hik2 hik
            · exact hrest kv hkv rs hrs hik2
      | jstr w =>
          replace h : relPhaseAux valid g s d rest = .ok (g1, s1) := h
          obtain ⟨hx, hrest⟩ := ih hWF h
          refine ⟨hx, ?_⟩
          intro kv hkv rs hrs hik2
          rcases List.mem_cons.mp hkv with rfl | hkv
          · replace hrs : JVal.jstr w = JVal.jlist rs := hrs
            exact absurd hrs (by simp)
          · exact hrest kv hkv rs hrs hik2
      | jnull =>
          replace h : relPhaseAux valid g s d rest = .ok (g1, s1) := h
          obtain ⟨hx, hrest⟩ := ih hWF h
          refine ⟨hx, ?_⟩
          intro kv hkv rs hrs hik2
          rcases List.mem_cons.mp hkv with rfl | hkv
          · replace hrs : JVal.jnull = JVal.jlist rs := hrs
            exact absurd hrs (by simp)
          · exact hrest kv hkv rs hrs hik2
      | jobj w =>
          replace h : relPhaseAux valid g s d rest = .ok (g1, s1) := h
          obtain ⟨hx, hrest⟩ := ih hWF h
          refine ⟨hx, ?_⟩
          intro kv hkv rs hrs hik2
          rcases List.mem_cons.mp hkv with rfl | hkv
          · replace hrs : JVal.jobj w = JVal.jlist rs := hrs
            exact absurd hrs (by simp)
          · exact hrest kv hkv rs hrs hik2

theorem relPhaseAux_err_facts {valid : List String}
    (hVI : ∀ t, validate_relation_type valid (validate_relation_type valid t) =
      validate_relation_type valid t) {d : String} (items : List (String × JVal)) :
    ∀ {g : Graph} {s : Summary} {gE : Graph} {sE : Summary}, WF g →
      relPhaseAux valid g s d items = .error (gE, sE) →
      EExt g gE ∧ RelPhaseErrAt valid gE items := by
  induction items with
  | nil =>
      intro g s gE sE hWF h
      replace h : (Except.ok (g, s) : Except St St) = .error (gE, sE) := h
      exact absurd h (by simp)
  | cons kv rest ih =>
      intro g s gE sE hWF h
      obtain ⟨key, v⟩ := kv
      unfold relPhaseAux at h
      cases v with
      | jlist rs0 =>
          dsimp only at h
          by_cases hik : isRelKey key = true
          · rw [if_pos hik] at h
            cases hl : processRelList valid g s d key rs0 with
            | ok st =>
                obtain ⟨g', s'⟩ := st
                rw [hl] at h
                replace h : relPhaseAux valid g' s' d rest = .error (gE, sE) := h
                obtain ⟨hx1, hset1⟩ := relList_facts hVI rs0 hWF hl
                obtain ⟨hx2, herr⟩ := ih (EExt_WF hx1 hWF) h
                refine ⟨EExt.trans hx1 hx2, ?_⟩
                rw [RelPhaseErrAt_cons]
                dsimp only
                rw [if_pos hik]
                exact Or.inr ⟨fun r hr => RelSettled_stable valid hx2 key r (hset1 r hr),
                  herr⟩
            | error st =>
                obtain ⟨gx, sx⟩ := st
                rw [hl] at h
                replace h : (Except.error (gx, sx) : Except St St) = .error (gE, sE) := h
                have hp : ((gx, sx) : St) = (gE, sE) := Except.error.inj h
                have hgx : gx = gE := congrArg Prod.fst hp
                subst hgx
                obtain ⟨hx1, herr1⟩ := relList_err_facts hVI rs0 hWF hl
                refine ⟨hx1, ?_⟩
                rw [RelPhaseErrAt_cons]
                dsimp only
                rw [if_pos hik]
                exact Or.inl herr1
          · rw [if_neg hik] at h
            obtain ⟨hx, herr⟩ := ih hWF h
            refine ⟨hx, ?_⟩
            rw [RelPhaseErrAt_cons]
            dsimp only
            rw [if_neg hik]
            exact herr
      | jstr w =>
          replace h : relPhaseAux valid g s d rest = .error (gE, sE) := h
          obtain ⟨hx, herr⟩ := ih hWF h
          refine ⟨hx, ?_⟩
          rw [RelPhaseErrAt_cons]
          exact herr
      | jnull =>
          replace h : relPhaseAux valid g s d rest = .error (gE, sE) := h
          obtain ⟨hx, herr⟩ := ih hWF h
          refine ⟨hx, ?_⟩
          rw [RelPhaseErrAt_cons]
          exact herr
      | jobj w =>
          replace h : relPhaseAux valid g s d rest = .error (gE, sE) := h
          obtain ⟨hx, herr⟩ := ih hWF h
          refine ⟨hx, ?_⟩
          rw [RelPhaseErrAt_cons]
          exact herr

theorem relPhaseAux_noop (valid : List String) {d : String} (items : List (String × JVal)) :
    ∀ (g : Graph) (s : Summary),
      (∀ kv ∈ items, ∀ rs, kv.2 = JVal.jlist rs → isRelKey kv.1 = true →
        ∀ r ∈ rs, RelSettled valid g kv.1 r) →
      relPhaseAux valid g s d items = .ok (g, s) := by
  induction items with
  | nil => intro g s hset; rfl
  | cons kv rest ih =>
      intro g s hset
      obtain ⟨key, v⟩ := kv
      unfold relPhaseAux
      cases v with
      | jlist rs0 =>
          dsimp only
          by_cases hik : isRelKey key = true
          · rw [if_pos hik]
            rw [relList_noop valid rs0 g s (hset (key, JVal.jlist rs0) (by simp) rs0 rfl hik)]
            exact ih g s (fun kv hkv => hset kv (by simp [hkv]))
          · rw [if_neg hik]
            exact ih g s (fun kv hkv => hset kv (by simp [hkv]))
      | jstr w => exact ih g s (fun kv hkv => hset kv (by simp [hkv]))
      | jnull => exact ih g s (fun kv hkv => hset kv (by simp [hkv]))
      | jobj w => exact ih g s (fun kv hkv => hset kv (by simp [hkv]))

theorem relPhaseAux_err_replay (valid : List String) {d : String}
    (items : List (String × JVal)) :
    ∀ (g : Graph) (s : Summary), RelPhaseErrAt valid g items →
      relPhaseAux valid g s d items = .error (g, s) := by
  induction items with
  | nil => intro g s herr; exact (herr : False).elim
  | cons kv rest ih =>
      intro g s herr
      obtain ⟨key, v⟩ := kv
      rw [RelPhaseErrAt_cons] at herr
      unfold relPhaseAux
      cases v with
      | jlist rs0 =>
          dsimp only at herr ⊢
          by_cases hik : isRelKey key = true
          · rw [if_pos hik] at herr ⊢
            rcases herr with herr | ⟨hset, herr⟩
            · rw [relList_err_replay valid rs0 g s herr]
            · rw [relList_noop valid rs0 g s hset]
              exact ih g s herr
          · rw [if_neg hik] at herr ⊢
            exact ih g s herr
      | jstr w => exact ih g s herr
      | jnull => exact ih g s herr
      | jobj w => exact ih g s herr

/-- Catalog members that do not strip to empty are fixed points of
validation. -/
theorem validate_mem_fixed (valid : List String) {v : String} (hv : v ∈ valid)
    (hne : pyStrip v ≠ "") : validate_relation_type valid v = v := by
  unfold validate_relation_type
  rw [if_neg hne, if_pos (show valid.contains v = true by simp [hv])]

/-- Validation is idempotent whenever the fallback label is itself a fixed
point and no catalog member strips to empty. -/
theorem validate_idem (valid : List String)
    (hR : validate_relation_type valid "RELATIONSHIP" = "RELATIONSHIP")
    (hne : ∀ v ∈ valid, pyStrip v ≠ "") (t : String) :
    validate_relation_type valid (validate_relation_type valid t) =
      validate_relation_type valid t := by
  by_cases hs : pyStrip t = ""
  · have ht : validate_relation_type valid t = "RELATIONSHIP" := by
      unfold validate_relation_type
      rw [if_pos hs]
    rw [ht]
    exact hR
  · by_cases hc : valid.contains t = true
    · have ht : validate_relation_type valid t = t := by
        unfold validate_relation_type
        rw [if_neg hs, if_pos hc]
      rw [ht]
      exact ht
    · cases hf : valid.find? (fun v => pyUpper v == pyUpper t) with
      | some v =>
          have hmem := List.mem_of_find?_eq_some hf
          have ht : validate_relation_type valid t = v := by
            unfold validate_relation_type
            rw [if_neg hs, if_neg hc, hf]
          rw [ht]
          exact validate_mem_fixed valid hmem (hne v hmem)
      | none =>
          have ht : validate_relation_type valid t = t := by
            unfold validate_relation_type
            rw [if_neg hs, if_neg hc, hf]
          rw [ht]
          exact ht

/-- The hard-coded fallback catalog validates idempotently. -/
theorem validate_idem_default (t : String) :
    validate_relation_type defaultRelationTypes
      (validate_relation_type defaultRelationTypes t) =
    validate_relation_type defaultRelationTypes t :=
  validate_idem defaultRelationTypes (by decide) (by decide) t

/-- Replaying the two-phase body of a parsed document on its own output
graph reproduces that graph exactly. -/
theorem ppo_idem (valid : List String)
    (hVI : ∀ t, validate_relation_type valid (validate_relation_type valid t) =
      validate_relation_type valid t)
    (g : Graph) (s s₂ : Summary) (did : String) (data : List (String × JVal))
    (hWF : WF g) :
    (processParsedObj valid (processParsedObj valid g s did data).1 s₂ did data).1 =
      (processParsedObj valid g s did data).1 := by
  cases hE1 : entityPhase g s did data with
  | error st =>
      obtain ⟨gE, sE⟩ := st
      have hrun1 : processParsedObj valid g s did data = (gE, markFailed sE, .failed) := by
        unfold processParsedObj
        simp only [hE1]
      rw [hrun1]
      show (processParsedObj valid gE s₂ did data).1 = gE
      obtain ⟨hx, herr⟩ := entPhaseAux_err_facts entityKeyTypes hWF hE1
      have hWFE : WF gE := WF_stable hx hWF
      have hrep0 : ∃ s1, entityPhaseAux gE s₂ did data entityKeyTypes
          = .error (gE, s1) := entPhaseAux_err_replay entityKeyTypes gE s₂ hWFE herr
      obtain ⟨s2E, hrep⟩ := hrep0
      have hrun2 : processParsedObj valid gE s₂ did data
          = (gE, markFailed s2E, .failed) := by
        unfold processParsedObj
        simp only [show entityPhase gE s₂ did data = Except.error (gE, s2E) from hrep]
      rw [hrun2]
  | ok st =>
      obtain ⟨g1, s1⟩ := st
      obtain ⟨hx1, hset1⟩ := entPhaseAux_facts entityKeyTypes hWF hE1
      have hWF1 : WF g1 := WF_stable hx1 hWF
      cases hR1 : relPhase valid g1 s1 did data with
      | error st2 =>
          obtain ⟨gE, sE⟩ := st2
          have hrun1 : processParsedObj valid g s did data
              = (gE, markFailed sE, .failed) := by
            unfold processParsedObj
            simp only [hE1, hR1]
          rw [hrun1]
          show (processParsedObj valid gE s₂ did data).1 = gE
          obtain ⟨hx2, herr2⟩ := relPhaseAux_err_facts hVI data hWF1 hR1
          have hxE : GExt g1 gE := GExt_of_EExt hx2
          have hWFE : WF gE := WF_stable hxE hWF1
          have hsetE : ∀ kt ∈ entityKeyTypes, ∀ es,
              lookupField kt.1 data = some (.jlist es) →
              ∀ e ∈ es, RecordSettled gE kt.2 e :=
            fun kt hkt es hes e he =>
              RecordSettled_stable hxE kt.2 e (hset1 kt hkt es hes e he)
          have hrepE0 : ∃ s1, entityPhaseAux gE s₂ did data entityKeyTypes
              = .ok (gE, s1) := entPhaseAux_noop entityKeyTypes gE s₂ hWFE hsetE
          obtain ⟨s2a, hrepE⟩ := hrepE0
          have hrep2 : relPhaseAux valid gE s2a did data = .error (gE, s2a) :=
            relPhaseAux_err_replay valid data gE s2a herr2
          have hrun2 : processParsedObj valid gE s₂ did data
              = (gE, markFailed s2a, .failed) := by
            unfold processParsedObj
            simp only [show entityPhase gE s₂ did data = Except.ok (gE, s2a) from hrepE,
              show relPhase valid gE s2a did data = Except.error (gE, s2a) from hrep2]
          rw [hrun2]
      | ok st2 =>
          obtain ⟨g2, s2⟩ := st2
          have hrun1 : processParsedObj valid g s did data
              = (g2, incProcessed s2, .processed) := by
            unfold processParsedObj
            simp only [hE1, hR1]
          rw [hrun1]
          show (processParsedObj valid g2 s₂ did data).1 = g2
          obtain ⟨hx2, hset2⟩ := relPhaseAux_facts hVI data hWF1 hR1
          have hx12 : GExt g1 g2 := GExt_of_EExt hx2
          have hWF2 : WF g2 := WF_stable hx12 hWF1
          have hsetE : ∀ kt ∈ entityKeyTypes, ∀ es,
              lookupField kt.1 data = some (.jlist es) →
              ∀ e ∈ es, RecordSettled g2 kt.2 e :=
            fun kt hkt es hes e he =>
              RecordSettled_stable hx12 kt.2 e (hset1 kt hkt es hes e he)
          have hrepE0 : ∃ s1, entityPhaseAux g2 s₂ did data entityKeyTypes
              = .ok (g2, s1) := entPhaseAux_noop entityKeyTypes g2 s₂ hWF2 hsetE
          obtain ⟨s2a, hrepE⟩ := hrepE0
          have hrepR : relPhaseAux valid g2 s2a did data = .ok (g2, s2a) :=
            relPhaseAux_noop valid data g2 s2a hset2
          have hrun2 : processParsedObj valid g2 s₂ did data
              = (g2, incProcessed s2a, .processed) := by
            unfold processParsedObj
            simp only [show entityPhase g2 s₂ did data = Except.ok (g2, s2a) from hrepE,
              show relPhase valid g2 s2a did data = Except.ok (g2, s2a) from hrepR]
          rw [hrun2]

/-- C1: processing the same extraction payload for the same document a
second time leaves the graph state identical to the state after the first
run — in particular no entity gains a duplicate NAME, id or provenance
entry, and no duplicate edge of any type is created between any entity
pair, since the second pass returns the first pass's store unchanged. -/
theorem idempotent_document_processing (g : Graph) (s s₂ : Summary) (doc : Document)
    (hWF : WF g) :
    (processDocumentData defaultRelationTypes
        (processDocumentData defaultRelationTypes g s doc).1 s₂ doc).1 =
      (processDocumentData defaultRelationTypes g s doc).1 := by
  obtain ⟨did, ana⟩ := doc
  cases ana with
  | missing => rfl
  | invalid str => rfl
  | parsed v =>
      cases v with
      | jobj data =>
          exact ppo_idem defaultRelationTypes validate_idem_default g s s₂ did data hWF
      | jstr w => rfl
      | jnull => rfl
      | jlist w => rfl

/-- A concrete document payload with entities and a relationship, used to
witness the idempotence theorem on the empty well-formed store. -/
def c1WitnessDoc : Document :=
  ⟨"doc1", .parsed (.jobj
    [("medications", .jlist [.jobj [("name", .jstr "Aspirin"), ("id", .jstr "D001")]]),
     ("diseases", .jlist [.jobj [("name", .jstr "Headache")]]),
     ("drug_disease_relationships", .jlist
        [.jobj [("drug", .jstr "Aspirin"), ("disease", .jstr "Headache")]])])⟩

/-- Witness: the idempotence theorem applied to a concrete document on the
empty store, with the well-formedness hypothesis discharged by computation. -/
theorem idempotent_document_processing_witness :
    WF ⟨[], [], 0⟩ ∧
      (processDocumentData defaultRelationTypes
          (processDocumentData defaultRelationTypes ⟨[], [], 0⟩ initSummary
            c1WitnessDoc).1 initSummary c1WitnessDoc).1 =
        (processDocumentData defaultRelationTypes ⟨[], [], 0⟩ initSummary
          c1WitnessDoc).1 :=
  ⟨by decide, idempotent_document_processing ⟨[], [], 0⟩ initSummary initSummary
    c1WitnessDoc (by decide)⟩

end CheckKG
